import Mathlib

/-!
# Verification of the obsidian-task-todoist synchronization core

Shallow embedding of the plugin's synchronization engine:
* `task-frontmatter.ts` — front-matter access (`getTaskStatus`, …),
* `task-note-repository.ts` — signatures, pending-scan, upsert,
* `sync-service.ts` — the reconciliation pass helpers,
* `todoist-client.ts` — command construction and item normalization,
* `import-rules.ts` — the import filter,
* `linked-checklist-sync.ts` — the linked-checklist mirror.

JavaScript runtime values stored in front matter (`Record<string, unknown>`)
are modelled by the inductive `Val`; a missing property reads as `Val.undef`,
matching JavaScript property access on an absent key.  Strings are Lean
strings; where the source hashes UTF-16 code units (`charCodeAt`) the
embedding converts code points to UTF-16 units explicitly.
-/

namespace TaskTodoist

/-- JavaScript value appearing inside a front-matter array (the plugin only
ever stores flat arrays). -/
inductive AVal where
  | str (s : String)
  | bool (b : Bool)
  | num (n : Int)
  | null
deriving DecidableEq, Repr

/-- JavaScript value stored under a front-matter key (`unknown` in the
source).  `undef` doubles as "property absent". -/
inductive Val where
  | str (s : String)
  | bool (b : Bool)
  | num (n : Int)
  | arr (l : List AVal)
  | null
  | undef
deriving DecidableEq, Repr

/-- Front matter: an insertion-ordered string-keyed object, as JavaScript
objects behave for the keys the plugin uses. -/
abbrev FM := List (String × Val)

/-- Property read (`frontmatter.key`); absent keys read as `undefined`. -/
def fmGet (fm : FM) (k : String) : Val :=
  match fm.find? (fun p => p.1 = k) with
  | some p => p.2
  | none => Val.undef

/-- Property write (`frontmatter.key = v`): replaces in place if the key
exists, otherwise appends (JavaScript object key order). -/
def fmSet : FM → String → Val → FM
  | [], k, v => [(k, v)]
  | p :: t, k, v => if p.1 = k then (k, v) :: t else p :: fmSet t k v

/-- `delete frontmatter.key`. -/
def fmDelete (fm : FM) (k : String) : FM :=
  fm.filter (fun p => ¬ p.1 = k)

/-- `'key' in frontmatter`. -/
def fmHas (fm : FM) (k : String) : Bool :=
  fm.any (fun p => p.1 = k)

/-- JavaScript truthiness of an optional string (`null`/`''` are falsy). -/
def strTruthy : Option String → Bool
  | none => false
  | some s => s ≠ ""

/-- The JavaScript whitespace class (`\s`, also the set `trim` strips):
ASCII blanks, NBSP, BOM, the Unicode space separators and the line
separators. -/
def jsSpaceChar (c : Char) : Bool :=
  [0x09, 0x0A, 0x0B, 0x0C, 0x0D, 0x20, 0xA0, 0x1680, 0x2028, 0x2029,
    0x202F, 0x205F, 0x3000, 0xFEFF].contains c.toNat
  || (0x2000 ≤ c.toNat && c.toNat ≤ 0x200A)

/-- `String.prototype.trim`: strip JavaScript whitespace from both ends. -/
def jsTrim (s : String) : String :=
  String.mk (((s.data.dropWhile jsSpaceChar).reverse.dropWhile jsSpaceChar).reverse)

/-- `String.prototype.toLowerCase`, restricted to the ASCII mapping the
plugin's comparisons rely on. -/
def jsToLower (s : String) : String :=
  String.mk (s.data.map Char.toLower)

/-- Inner loop of `split(',')`. -/
def splitCommaAux : List Char → List Char → List String
  | [], acc => [String.mk acc.reverse]
  | c :: cs, acc =>
    if c = ',' then String.mk acc.reverse :: splitCommaAux cs []
    else splitCommaAux cs (c :: acc)

/-- `String.prototype.split(',')` (`''.split(',')` is `['']`). -/
def jsSplitComma (s : String) : List String :=
  splitCommaAux s.data []

/-- `String.prototype.startsWith`. -/
def strStartsWith (s pre : String) : Bool :=
  pre.data.isPrefixOf s.data

/-- `typeof v === 'string' ? v : undefined` reading of an array entry. -/
def avalAsString : AVal → Option String
  | AVal.str s => some s
  | _ => none

/-- `typeof v === 'string' ? v : undefined` reading of a `Val`. -/
def valAsString : Val → Option String
  | Val.str s => some s
  | _ => none

/-- `toOptionalString` from `task-note-repository.ts`: a trimmed non-empty
string, else `undefined`. -/
def toOptionalString (v : Val) : Option String :=
  match v with
  | Val.str s => if jsTrim s = "" then none else some (jsTrim s)
  | _ => none

/-- `toOptionalNumber` from `task-note-repository.ts`. -/
def toOptionalNumber (v : Val) : Option Int :=
  match v with
  | Val.num n => some n
  | _ => none

/-- `toOptionalBoolean` from `task-note-repository.ts`. -/
def toOptionalBoolean (v : Val) : Option Bool :=
  match v with
  | Val.bool true => some true
  | Val.str "true" => some true
  | Val.bool false => some false
  | Val.str "false" => some false
  | _ => none

/-- `toStringArray` from `task-note-repository.ts`: keep only the string
entries of an array value, else `[]`. -/
def toStringArray (v : Val) : List String :=
  match v with
  | Val.arr l => l.filterMap avalAsString
  | _ => []

/-- `isTruthy` from `task-note-repository.ts` (`value === true || value === 'true'`). -/
def isTruthy (v : Val) : Bool :=
  v == Val.bool true || v == Val.str "true"

/-! ## UTF-16 units, JSON serialization and the rolling hash -/

/-- UTF-16 code units of one code point (surrogate pair for astral points),
as `charCodeAt` enumerates them. -/
def charUtf16 (c : Char) : List Nat :=
  let n := c.toNat
  if n < 0x10000 then [n]
  else
    let m := n - 0x10000
    [0xD800 + m / 0x400, 0xDC00 + m % 0x400]

/-- UTF-16 code units of a string. -/
def utf16Units (s : String) : List Nat :=
  s.data.flatMap charUtf16

/-- Lowercase hexadecimal digits of `n`, two positions per byte not needed:
plain base-16 digits, no leading zeros (JavaScript `toString(16)`). -/
def natToHex (n : Nat) : String :=
  String.mk (Nat.toDigits 16 n)

/-- `padStart(8, '0')`. -/
def padStart8 (s : String) : String :=
  String.mk (List.replicate (8 - s.length) '0') ++ s

/-- Signed 32-bit reinterpretation of an unsigned 32-bit value. -/
def u32ToI32 (u : Nat) : Int :=
  if u < 2 ^ 31 then (u : Int) else (u : Int) - 2 ^ 32

/-- `ToUint32` of an exact integer. -/
def intToU32 (n : Int) : Nat :=
  (n.emod (2 ^ 32)).toNat

/-- One step of `simpleStableHash`: fold in one UTF-16 unit.  `^` operates
on 32-bit values; the shift-and-add sum is exact in a JavaScript number and
reduced modulo 2^32 only when the next `^=` (or the final `>>> 0`)
reinterprets it. -/
def hashStep (h : Nat) (c : Nat) : Nat :=
  let x : Nat := Nat.xor h c
  let s : Int :=
    u32ToI32 x + u32ToI32 (intToU32 ((x : Int) * 2)) + u32ToI32 (intToU32 ((x : Int) * 2 ^ 4))
      + u32ToI32 (intToU32 ((x : Int) * 2 ^ 7)) + u32ToI32 (intToU32 ((x : Int) * 2 ^ 8))
  intToU32 (u32ToI32 x + s)

/-- `simpleStableHash` from `task-note-repository.ts`: FNV-style rolling
hash over the UTF-16 units, rendered as 8 lowercase hex digits. -/
def simpleStableHash (value : String) : String :=
  padStart8 (natToHex ((utf16Units value).foldl hashStep 2166136261))

/-- Two lowercase hex digits of a byte. -/
def hexByte (n : Nat) : String :=
  let s := natToHex n
  if s.length < 2 then "0" ++ s else s

/-- JSON escape of one code point as `JSON.stringify` performs it. -/
def jsonEscapeChar (c : Char) : String :=
  if c = '"' then "\\\""
  else if c = '\\' then "\\\\"
  else if c = (Char.ofNat 8) then "\\b"
  else if c = '\t' then "\\t"
  else if c = '\n' then "\\n"
  else if c = (Char.ofNat 12) then "\\f"
  else if c = (Char.ofNat 13) then "\\r"
  else if c.toNat < 0x20 then "\\u00" ++ hexByte c.toNat
  else String.singleton c

/-- `JSON.stringify` of a string. -/
def jsonString (s : String) : String :=
  "\"" ++ String.join (s.data.map jsonEscapeChar) ++ "\""

/-- A JSON array element appearing in a signature tuple: the source
serializes strings and numbers only. -/
inductive JVal where
  | s (v : String)
  | n (v : Int)
deriving DecidableEq, Repr

/-- `JSON.stringify` of one tuple element. -/
def jvalJson : JVal → String
  | JVal.s v => jsonString v
  | JVal.n v => toString v

/-- `JSON.stringify` of the signature tuple (an array). -/
def jsonArray (l : List JVal) : String :=
  "[" ++ String.intercalate "," (l.map jvalJson) ++ "]"

/-! ## Task status and title (`task-frontmatter.ts`) -/

/-- The two-valued completion status (`'open' | 'done'`). -/
inductive TaskStatus where
  | opn
  | done
deriving DecidableEq, Repr

/-- `typeof v === 'string' ? v.trim().toLowerCase() : ''`, the normalized
reading both status keys use. -/
def valLower (v : Val) : String :=
  match valAsString v with
  | some s => jsToLower (jsTrim s)
  | none => ""

/-- `getTaskStatus` from `task-frontmatter.ts`, translated branch for
branch. -/
def getTaskStatus (fm : FM) : TaskStatus :=
  if fmGet fm "task_done" = Val.bool true ∨ fmGet fm "task_done" = Val.str "true" then
    TaskStatus.done
  else if fmGet fm "task_done" = Val.bool false ∨ fmGet fm "task_done" = Val.str "false" then
    TaskStatus.opn
  else
    let taskStatus := valLower (fmGet fm "task_status")
    if taskStatus = "done" then TaskStatus.done
    else if taskStatus = "open" then TaskStatus.opn
    else if fmGet fm "done" = Val.bool true ∨ fmGet fm "done" = Val.str "true" then
      TaskStatus.done
    else
      let legacyStatus := valLower (fmGet fm "status")
      if legacyStatus = "done" then TaskStatus.done else TaskStatus.opn

/-- `getTaskTitle` from `task-frontmatter.ts`. -/
def getTaskTitle (fm : FM) (fallback : String) : String :=
  let taskTitle :=
    match valAsString (fmGet fm "task_title") with
    | some s => jsTrim s
    | none => ""
  if taskTitle ≠ "" then taskTitle
  else
    let legacyTitle :=
      match valAsString (fmGet fm "title") with
      | some s => jsTrim s
      | none => ""
    if legacyTitle ≠ "" then legacyTitle else fallback

/-- `setTaskTitle` from `task-frontmatter.ts`. -/
def setTaskTitle (fm : FM) (title : String) : FM :=
  fmDelete (fmSet fm "task_title" (Val.str title)) "title"

/-- `setTaskStatus` from `task-frontmatter.ts`. -/
def setTaskStatus (fm : FM) (status : TaskStatus) : FM :=
  let fm := fmSet fm "task_status"
    (Val.str (if status = TaskStatus.done then "done" else "open"))
  let fm := fmSet fm "task_done" (Val.bool (status = TaskStatus.done))
  fmDelete (fmDelete fm "status") "done"

/-! ## Remote task snapshot model (`todoist-client.ts`) -/

/-- The normalized `due` object of a remote item. -/
structure TodoistDue where
  date : Option String := none
  string : Option String := none
  is_recurring : Option Bool := none
  datetime : Option String := none
  timezone : Option String := none
  lang : Option String := none
deriving DecidableEq, Repr

/-- A normalized remote item (`TodoistItem` interface). -/
structure TodoistItem where
  id : String
  content : String
  description : Option String := none
  project_id : String
  section_id : Option String := none
  parent_id : Option String := none
  priority : Option Int := none
  due : Option TodoistDue := none
  labels : Option (List String) := none
  checked : Option Bool := none
  is_deleted : Option Bool := none
  responsible_uid : Option String := none
deriving DecidableEq, Repr

/-- A remote project (`TodoistProject`). -/
structure TodoistProject where
  id : String
  name : String
deriving DecidableEq, Repr

/-- A remote section (`TodoistSection`). -/
structure TodoistSection where
  id : String
  name : String
  project_id : String
deriving DecidableEq, Repr

/-- `new Map(pairs)` lookup: the last pair for a key wins. -/
def jsMapGet {α : Type} (l : List (String × α)) (k : String) : Option α :=
  (l.reverse.find? (fun p => p.1 = k)).map Prod.snd

/-- `map.has(k)` for a map built from pairs. -/
def jsMapHas {α : Type} (l : List (String × α)) (k : String) : Bool :=
  l.any (fun p => p.1 = k)

/-- `map.set(k, v)` on an insertion-ordered map: an existing key keeps its
position, a new key is appended. -/
def jsMapSet {α : Type} (l : List (String × α)) (k : String) (v : α) :
    List (String × α) :=
  if l.any (fun p => p.1 = k) then
    l.map (fun p => if p.1 = k then (k, v) else p)
  else
    l ++ [(k, v)]

/-- JavaScript truthiness of an optional boolean. -/
def optBoolTruthy (o : Option Bool) : Bool :=
  o.getD false

/-! ## Signatures (`task-note-repository.ts`) -/

/-- Input tuple of `buildTodoistSyncSignature`. -/
structure SyncSigInput where
  title : String
  description : String
  isDone : Bool
  isRecurring : Bool
  projectId : Option String := none
  sectionId : Option String := none
  dueDate : Option String := none
  dueString : Option String := none
deriving DecidableEq, Repr

/-- `buildTodoistSyncSignature` from `task-note-repository.ts`. -/
def buildTodoistSyncSignature (input : SyncSigInput) : String :=
  simpleStableHash (jsonArray [
    JVal.s (jsTrim input.title),
    JVal.s (jsTrim input.description),
    JVal.n (if input.isDone then 1 else 0),
    JVal.n (if input.isRecurring then 1 else 0),
    JVal.s ((input.projectId.map jsTrim).getD ""),
    JVal.s ((input.sectionId.map jsTrim).getD ""),
    JVal.s ((input.dueDate.map jsTrim).getD ""),
    JVal.s ((input.dueString.map jsTrim).getD "")])

/-- The pair of name-resolution maps handed to the repository. -/
structure ProjectSectionMaps where
  projectNameById : List (String × String)
  sectionNameById : List (String × String)
deriving DecidableEq, Repr

/-- `buildRemoteImportSignature` from `task-note-repository.ts`. -/
def buildRemoteImportSignature (item : TodoistItem) (maps : ProjectSectionMaps) : String :=
  simpleStableHash (jsonArray [
    JVal.s item.content,
    JVal.s (item.description.getD ""),
    JVal.n (if optBoolTruthy item.checked then 1 else 0),
    JVal.s item.project_id,
    JVal.s ((jsMapGet maps.projectNameById item.project_id).getD "Unknown"),
    JVal.s (item.section_id.getD ""),
    JVal.s (if strTruthy item.section_id then
        (jsMapGet maps.sectionNameById (item.section_id.getD "")).getD ""
      else ""),
    JVal.n (item.priority.getD 1),
    JVal.s ((item.due.bind TodoistDue.date).getD ""),
    JVal.s ((item.due.bind TodoistDue.string).getD ""),
    JVal.n (if optBoolTruthy (item.due.bind TodoistDue.is_recurring) then 1 else 0),
    JVal.s (item.parent_id.getD ""),
    JVal.s (String.intercalate "|" (item.labels.getD []))])

/-! ## Settings (`settings.ts`) and the import filter (`import-rules.ts`) -/

/-- `ArchiveMode`. -/
inductive ArchiveMode where
  | none
  | moveToArchiveFolder
  | markLocalDone
deriving DecidableEq, Repr

/-- `ImportProjectScope`. -/
inductive ImportProjectScope where
  | allProjects
  | allowListByName
deriving DecidableEq, Repr

/-- The plugin settings relevant to the sync engine. -/
structure TaskTodoistSettings where
  tasksFolderPath : String
  defaultTaskTag : String
  autoRenameTaskFiles : Bool
  archiveMode : ArchiveMode
  archiveFolderPath : String
  autoImportEnabled : Bool
  autoImportProjectScope : ImportProjectScope
  autoImportAllowedProjectNames : String
  autoImportRequiredLabel : String
  autoImportAssignedToMeOnly : Bool
deriving DecidableEq, Repr

/-- `parseAllowedProjectNames` from `import-rules.ts`.  The source wraps the
result in a `Set`; it is only queried through `has` and `size > 0`, for
which a list is an exact model. -/
def parseAllowedProjectNames (rawValue : String) : List String :=
  ((jsSplitComma rawValue).map (fun name => jsToLower (jsTrim name))).filter (fun s => s ≠ "")

/-- The per-item body of the `items.filter` callback in
`filterImportableItems`, early-return for early-return. -/
def importItemCheck (projectNameById : List (String × String))
    (allowedProjectNames : List String) (requiredLabel : String)
    (settings : TaskTodoistSettings) (userId : Option String)
    (item : TodoistItem) : Bool :=
  if optBoolTruthy item.is_deleted then false
  else if settings.autoImportAssignedToMeOnly && strTruthy userId
      && strTruthy item.responsible_uid && item.responsible_uid != userId then false
  else if (settings.autoImportProjectScope == ImportProjectScope.allowListByName)
      && !allowedProjectNames.isEmpty then
    if !strTruthy ((jsMapGet projectNameById item.project_id).map jsToLower)
        || !allowedProjectNames.contains
            (((jsMapGet projectNameById item.project_id).map jsToLower).getD "") then
      false
    else if requiredLabel ≠ "" then
      ((item.labels.getD []).map jsToLower).contains requiredLabel
    else true
  else if requiredLabel ≠ "" then
    ((item.labels.getD []).map jsToLower).contains requiredLabel
  else true

/-- `filterImportableItems` from `import-rules.ts`. -/
def filterImportableItems (items : List TodoistItem) (projects : List TodoistProject)
    (settings : TaskTodoistSettings) (userId : Option String) : List TodoistItem :=
  if !settings.autoImportEnabled then []
  else
    let projectNameById := projects.map (fun p => (p.id, p.name))
    let allowedProjectNames := parseAllowedProjectNames settings.autoImportAllowedProjectNames
    let requiredLabel := jsToLower (jsTrim settings.autoImportRequiredLabel)
    items.filter (importItemCheck projectNameById allowedProjectNames requiredLabel
      settings userId)

/-! ## Remote command construction (`todoist-client.ts`) -/

/-- The `due` object attached to a command (`buildDueObject` result). -/
structure DueObj where
  date : Option String := none
  string : Option String := none
deriving DecidableEq, Repr

/-- `buildDueObject`: trimmed date/string, dropped entirely when both are
blank. -/
def buildDueObject (dueDate dueString : Option String) : Option DueObj :=
  let normalizedDate := (dueDate.map jsTrim).getD ""
  let normalizedString := (dueString.map jsTrim).getD ""
  if normalizedDate = "" ∧ normalizedString = "" then none
  else some
    { date := if normalizedDate ≠ "" then some normalizedDate else none
      string := if normalizedString ≠ "" then some normalizedString else none }

/-- Presence of the `due` key in `item_update` arguments: absent, a due
object, or an explicit `due: null`. -/
inductive DueArg where
  | omitted
  | value (d : DueObj)
  | cleared
deriving DecidableEq, Repr

/-- The arguments of an `item_update` command as `updateTask` builds them. -/
structure ItemUpdateArgs where
  id : String
  content : String
  description : String
  project_id : Option String := none
  section_id : Option String := none
  due : DueArg := DueArg.omitted
deriving DecidableEq, Repr

/-- Which completion-toggle command is issued. -/
inductive ToggleType where
  | close
  | uncomplete
deriving DecidableEq, Repr

/-- The arguments of the completion-toggle command: the source passes
`{ id: input.id }` and nothing else. -/
structure ToggleArgs where
  id : String
deriving DecidableEq, Repr

/-- `TodoistTaskUpdateInput` from `todoist-client.ts`. -/
structure TodoistTaskUpdateInput where
  id : String
  content : String
  description : Option String := none
  isDone : Bool
  isRecurring : Option Bool := none
  projectId : Option String := none
  sectionId : Option String := none
  dueDate : Option String := none
  dueString : Option String := none
  clearDue : Option Bool := none
deriving DecidableEq, Repr

/-- The command batch built by `TodoistClient.updateTask`: one
`item_update` followed by one completion toggle (`item_close` when marking
done, `item_uncomplete` otherwise). -/
def updateTaskCommands (input : TodoistTaskUpdateInput) :
    ItemUpdateArgs × ToggleType × ToggleArgs :=
  let isRecurringCompletion := input.isDone && optBoolTruthy input.isRecurring
  let due := buildDueObject input.dueDate input.dueString
  ({ id := input.id
     content := input.content
     description := input.description.getD ""
     project_id := if strTruthy input.projectId then input.projectId else none
     section_id := if strTruthy input.sectionId then input.sectionId else none
     due :=
       if isRecurringCompletion then DueArg.omitted
       else
         match due with
         | some d => DueArg.value d
         | none => if optBoolTruthy input.clearDue then DueArg.cleared else DueArg.omitted },
   (if input.isDone then ToggleType.close else ToggleType.uncomplete),
   { id := input.id })

/-! ## Sync-service resolvers and the push loops (`sync-service.ts`) -/

/-- `/^\d{4}-\d{2}-\d{2}$/`. -/
def isIsoDateShape (s : String) : Bool :=
  match s.data with
  | [a, b, c, d, h1, e, f, h2, g, i] =>
    a.isDigit && b.isDigit && c.isDigit && d.isDigit && h1 = '-'
      && e.isDigit && f.isDigit && h2 = '-' && g.isDigit && i.isDigit
  | _ => false

/-- `resolveDue` from `sync-service.ts`: a blank raw due yields neither
field, a `YYYY-MM-DD` shape yields a due date, anything else a due
string. -/
def resolveDue (dueRaw : Option String) : Option String × Option String :=
  let due := (dueRaw.map jsTrim).getD ""
  if due = "" then (none, none)
  else if isIsoDateShape due then (some due, none)
  else (none, some due)

/-- `resolveProjectId` from `sync-service.ts`. -/
def resolveProjectId (projectId : Option String) (projectName : Option String)
    (projectIdByName : List (String × String)) : Option String :=
  if strTruthy (projectId.map jsTrim) then projectId.map jsTrim
  else if ¬ strTruthy (projectName.map jsTrim) then none
  else jsMapGet projectIdByName (jsToLower (jsTrim (projectName.getD "")))

/-- `resolveSectionId` from `sync-service.ts`: an explicit id wins; a name
is looked up case-insensitively among the resolved project's sections. -/
def resolveSectionId (sectionId : Option String) (sectionName : Option String)
    (projectId : Option String) (sections : List TodoistSection) : Option String :=
  if strTruthy (sectionId.map jsTrim) then sectionId.map jsTrim
  else if ¬ strTruthy (sectionName.map jsTrim) ∨ ¬ strTruthy projectId then none
  else (sections.find? (fun s =>
      s.project_id = projectId.getD ""
        ∧ jsToLower s.name = jsToLower (jsTrim (sectionName.getD "")))).map
    TodoistSection.id

/-- `PendingLocalCreate` from `task-note-repository.ts`, plus the `dueRaw`
property that `sync-service.ts` reads: the interface never declares it and
`listPendingLocalCreates` never sets it, so in JavaScript the access yields
`undefined`; it is modelled as an always-`none` field. -/
structure PendingLocalCreate where
  file : String
  title : String
  description : String
  isDone : Bool
  isRecurring : Bool
  syncSignature : String
  projectName : Option String := none
  sectionName : Option String := none
  dueDate : Option String := none
  dueString : Option String := none
  projectId : Option String := none
  sectionId : Option String := none
  priority : Option Int := none
  labels : List String := []
  dueRaw : Option String := none
deriving DecidableEq, Repr

/-- `PendingLocalUpdate` from `task-note-repository.ts`, with the same
undeclared `dueRaw` property modelled as always `none`. -/
structure PendingLocalUpdate where
  file : String
  todoistId : String
  title : String
  description : String
  isDone : Bool
  isRecurring : Bool
  syncSignature : String
  projectName : Option String := none
  sectionName : Option String := none
  dueDate : Option String := none
  dueString : Option String := none
  projectId : Option String := none
  sectionId : Option String := none
  dueRaw : Option String := none
deriving DecidableEq, Repr

/-- The `updateTask` input object built in the pending-update loop of
`runImportSync` (`sync-service.ts` lines 83–93): note that the object
literal carries no `isRecurring` property and takes its due fields from
`resolveDue(pending.dueRaw)`. -/
def buildUpdateTaskInput (pending : PendingLocalUpdate)
    (projectIdByName : List (String × String)) (sections : List TodoistSection) :
    TodoistTaskUpdateInput :=
  let resolvedProjectId := resolveProjectId pending.projectId pending.projectName projectIdByName
  let resolvedSectionId :=
    resolveSectionId pending.sectionId pending.sectionName resolvedProjectId sections
  let d := resolveDue pending.dueRaw
  { id := pending.todoistId
    content := pending.title
    description := some pending.description
    isDone := pending.isDone
    projectId := resolvedProjectId
    sectionId := resolvedSectionId
    dueDate := d.1
    dueString := d.2
    clearDue := some (!strTruthy d.1 && !strTruthy d.2) }

/-! ## Repository bookkeeping (`task-note-repository.ts`) -/

/-- The timestamps a run would format from `new Date()`; their values are
irrelevant to every property proved here, so they are inputs. -/
structure Clock where
  createdDate : String
  modifiedDate : String
  isoNow : String
deriving DecidableEq, Repr

/-- `normalizeTag` from `task-frontmatter.ts`: trim, drop if blank, strip
leading `#`s. -/
def normalizeTag (value : Option String) : Option String :=
  let trimmed := jsTrim (value.getD "")
  if trimmed = "" then none
  else some (String.mk (trimmed.data.dropWhile (fun c => c = '#')))

/-- `normalizeTags` from `task-frontmatter.ts`. -/
def normalizeTags (value : Val) : List String :=
  match value with
  | Val.arr l => (l.filterMap avalAsString).filterMap (fun e => normalizeTag (some e))
  | Val.str s =>
    match normalizeTag (some s) with
    | some t => [t]
    | none => []
  | _ => []

/-- `applyStandardTaskFrontmatter` from `task-frontmatter.ts`. -/
def applyStandardTaskFrontmatter (settings : TaskTodoistSettings) (clock : Clock)
    (fm : FM) : FM :=
  let createdBlank : Bool :=
    match valAsString (fmGet fm "created") with
    | some s => jsTrim s == ""
    | none => true
  let fm :=
    if createdBlank then fmSet fm "created" (Val.str clock.createdDate) else fm
  let fm := fmSet fm "modified" (Val.str clock.modifiedDate)
  let defaultTag := normalizeTag (some settings.defaultTaskTag)
  let existingTags := normalizeTags (fmGet fm "tags")
  let newTags :=
    match defaultTag with
    | some t => if t ∈ existingTags then existingTags else t :: existingTags
    | none => existingTags
  let fm := fmSet fm "tags" (Val.arr (newTags.map AVal.str))
  let linksIsArray : Bool :=
    match fmGet fm "links" with
    | Val.arr _ => true
    | _ => false
  if linksIsArray then fm else fmSet fm "links" (Val.arr [])

/-- Modelled from the spec: `touchModifiedDate` is imported from
`task-frontmatter.ts` but missing from the provided source file; per the
spec's "modified timestamp" bookkeeping it stamps `modified` with the
current formatted time. -/
def touchModifiedDate (clock : Clock) (fm : FM) : FM :=
  fmSet fm "modified" (Val.str clock.modifiedDate)

/-- `markLocalCreateSynced` from `task-note-repository.ts`.  Its TypeScript
declaration requires a `syncSignature: string`; the parameter is modelled as
`Option String` because the caller in `sync-service.ts` supplies no third
argument, which in JavaScript makes the parameter `undefined`. -/
def markLocalCreateSynced (settings : TaskTodoistSettings) (clock : Clock) (fm : FM)
    (todoistId : String) (syncSignature : Option String) : FM :=
  let fm := applyStandardTaskFrontmatter settings clock fm
  let fm := fmSet fm "todoist_id" (Val.str todoistId)
  let fm := fmSet fm "todoist_sync_status" (Val.str "synced")
  let fm := fmSet fm "todoist_last_synced_signature"
    (match syncSignature with
     | some s => Val.str s
     | none => Val.undef)
  let fm := if fmHas fm "sync_status" then fmDelete fm "sync_status" else fm
  fmSet fm "todoist_last_imported_at" (Val.str clock.isoNow)

/-- `markLocalUpdateSynced` from `task-note-repository.ts`, with the
signature parameter modelled as in `markLocalCreateSynced`. -/
def markLocalUpdateSynced (settings : TaskTodoistSettings) (clock : Clock) (fm : FM)
    (syncSignature : Option String) : FM :=
  let fm := applyStandardTaskFrontmatter settings clock fm
  let fm := fmSet fm "todoist_sync_status" (Val.str "synced")
  let fm := fmSet fm "todoist_last_synced_signature"
    (match syncSignature with
     | some s => Val.str s
     | none => Val.undef)
  let fm := if fmHas fm "sync_status" then fmDelete fm "sync_status" else fm
  fmSet fm "todoist_last_imported_at" (Val.str clock.isoNow)

/-- The bookkeeping step of the create loop exactly as `runImportSync`
performs it: `markLocalCreateSynced(pending.file, createdTodoistId)` — two
arguments, no signature. -/
def createLoopBookkeeping (settings : TaskTodoistSettings) (clock : Clock)
    (noteFm : FM) (createdTodoistId : String) : FM :=
  markLocalCreateSynced settings clock noteFm createdTodoistId none

/-- The bookkeeping step of the update loop exactly as `runImportSync`
performs it: `markLocalUpdateSynced(pending.file)` — one argument, no
signature. -/
def updateLoopBookkeeping (settings : TaskTodoistSettings) (clock : Clock)
    (noteFm : FM) : FM :=
  markLocalUpdateSynced settings clock noteFm none

/-! ## The pending-update scan (`task-note-repository.ts`) -/

/-- A markdown file as the repository sees it: path, basename (Obsidian's
`TFile.basename`), the metadata cache's parsed front matter (absent when
the file has none), and the body text following the front-matter block
(`cachedRead` minus the leading `---` block). -/
structure NoteFile where
  path : String
  basename : String
  fm : Option FM
  body : String
deriving DecidableEq, Repr

/-- The two-key sync-status read (`todoist_sync_status`, falling back to
the legacy `sync_status`). -/
def readSyncStatusKeys (fm : FM) : String :=
  match valAsString (fmGet fm "todoist_sync_status") with
  | some s => s
  | none =>
    match valAsString (fmGet fm "sync_status") with
    | some s => s
    | none => ""

/-- `typeof frontmatter.todoist_id === 'string' ? frontmatter.todoist_id.trim() : ''`. -/
def readTrimmedTodoistId (fm : FM) : String :=
  match valAsString (fmGet fm "todoist_id") with
  | some s => jsTrim s
  | none => ""

/-- The stored `todoist_last_synced_signature`, `''` when not a string. -/
def readLastSyncedSignature (fm : FM) : String :=
  match valAsString (fmGet fm "todoist_last_synced_signature") with
  | some s => s
  | none => ""

/-- The local signature `listPendingLocalUpdates` recomputes for a note. -/
def noteLocalSignature (fm : FM) (basename body : String) : String :=
  buildTodoistSyncSignature
    { title := jsTrim (getTaskTitle fm basename)
      description := jsTrim body
      isDone := getTaskStatus fm == TaskStatus.done
      isRecurring := isTruthy (fmGet fm "todoist_is_recurring")
      projectId := toOptionalString (fmGet fm "todoist_project_id")
      sectionId := toOptionalString (fmGet fm "todoist_section_id")
      dueDate := toOptionalString (fmGet fm "todoist_due")
      dueString := toOptionalString (fmGet fm "todoist_due_string") }

/-- The pending record `listPendingLocalUpdates` pushes for a note that is
genuinely dirty. -/
def mkPendingLocalUpdate (fm : FM) (file : NoteFile) : PendingLocalUpdate :=
  { file := file.path
    todoistId := readTrimmedTodoistId fm
    title := jsTrim (getTaskTitle fm file.basename)
    description := jsTrim file.body
    isDone := getTaskStatus fm == TaskStatus.done
    isRecurring := isTruthy (fmGet fm "todoist_is_recurring")
    syncSignature := noteLocalSignature fm file.basename file.body
    projectName := toOptionalString (fmGet fm "todoist_project_name")
    sectionName := toOptionalString (fmGet fm "todoist_section_name")
    dueDate := toOptionalString (fmGet fm "todoist_due")
    dueString := toOptionalString (fmGet fm "todoist_due_string")
    projectId := toOptionalString (fmGet fm "todoist_project_id")
    sectionId := toOptionalString (fmGet fm "todoist_section_id") }

/-- The self-healing front-matter rewrite: revert to `synced`, drop the
legacy key. -/
def selfHealFm (settings : TaskTodoistSettings) (clock : Clock) (fm : FM) : FM :=
  let fm := applyStandardTaskFrontmatter settings clock fm
  let fm := fmSet fm "todoist_sync_status" (Val.str "synced")
  if fmHas fm "sync_status" then fmDelete fm "sync_status" else fm

/-- One iteration of the `listPendingLocalUpdates` loop
(`task-note-repository.ts` lines 284–359): returns the possibly rewritten
file and the pending entry it contributes, if any.  `normalizePath` is the
identity on the already normalized paths modelled here. -/
def listPendingLocalUpdatesStep (settings : TaskTodoistSettings) (clock : Clock)
    (file : NoteFile) : NoteFile × Option PendingLocalUpdate :=
  if ¬ (file.path = settings.tasksFolderPath
      ∨ strStartsWith file.path (settings.tasksFolderPath ++ "/")) then
    (file, none)
  else
    match file.fm with
    | none => (file, none)
    | some fm =>
      if readSyncStatusKeys fm ≠ "dirty_local" then (file, none)
      else if readTrimmedTodoistId fm = "" then (file, none)
      else if jsTrim (getTaskTitle fm file.basename) = "" then (file, none)
      else if readSyncStatusKeys fm = "dirty_local"
          ∧ readLastSyncedSignature fm = noteLocalSignature fm file.basename file.body then
        ({ file with fm := some (selfHealFm settings clock fm) }, none)
      else
        (file, some (mkPendingLocalUpdate fm file))

/-- `listPendingLocalUpdates`: scan every markdown file, rewriting
false-positive dirty notes and collecting the genuinely pending updates. -/
def listPendingLocalUpdates (settings : TaskTodoistSettings) (clock : Clock)
    (files : List NoteFile) : List NoteFile × List PendingLocalUpdate :=
  (files.map (fun f => (listPendingLocalUpdatesStep settings clock f).1),
   files.filterMap (fun f => (listPendingLocalUpdatesStep settings clock f).2))

/-! ## Upsert of one remote item (`task-note-repository.ts`) -/

/-- `trimEnd()` with the JavaScript whitespace class. -/
def jsTrimEnd (s : String) : String :=
  String.mk ((s.data.reverse.dropWhile jsSpaceChar).reverse)

/-- `hasBodyContent`: the source strips the leading front-matter block from
the raw file text and trims; `NoteFile.body` already is the text after the
block, so only the trim remains. -/
def hasBodyContent (body : String) : Bool :=
  jsTrim body ≠ ""

/-- Collapse every whitespace run to one space (`replace(/\s+/g, ' ')`). -/
def collapseWs : List Char → List Char
  | [] => []
  | c :: cs =>
    if jsSpaceChar c then ' ' :: collapseWs (cs.dropWhile jsSpaceChar)
    else c :: collapseWs cs
termination_by l => l.length
decreasing_by
  · exact Nat.lt_succ_of_le (List.dropWhile_sublist jsSpaceChar).length_le
  · exact Nat.lt_succ_of_le (Nat.le_refl cs.length)

/-- `sanitizeFileName` from `task-note-repository.ts`: replace filesystem
specials by blanks, collapse whitespace, trim, keep 80 characters. -/
def sanitizeFileName (value : String) : String :=
  let replaced := value.data.map (fun c =>
    if ['\\', '/', ':', '*', '?', '"', '<', '>', '|'].contains c then ' ' else c)
  String.mk ((jsTrim (String.mk (collapseWs replaced))).data.take 80)

/-- Drop a trailing `.md` (`replace(/\.md$/i, '')`). -/
def stripMdSuffix (s : String) : String :=
  match s.data.reverse with
  | d :: m :: dot :: rest =>
    if (d = 'd' ∨ d = 'D') ∧ (m = 'm' ∨ m = 'M') ∧ dot = '.' then
      String.mk rest.reverse
    else s
  | _ => s

/-- `getFolderPath`: the path up to the last `/`, `''` when the slash is
leading or absent. -/
def getFolderPath (p : String) : String :=
  if p.data.contains '/' then
    String.mk (((p.data.reverse.dropWhile (fun c => c ≠ '/')).drop 1).reverse)
  else ""

/-- The basename of a path: the segment after the last `/`, without `.md`. -/
def basenameOf (p : String) : String :=
  stripMdSuffix (String.mk ((p.data.reverse.takeWhile (fun c => c ≠ '/')).reverse))

/-- The suffix loop of `getUniqueFilePathInFolder`, bounded by the size of
the finite vault (the source's `while (true)` stops at the first free
suffix). -/
def uniqueSuffixLoop (vault : List String) (folder name : String) :
    Nat → Nat → String
  | 0, suffix => folder ++ "/" ++ name ++ "-" ++ toString suffix ++ ".md"
  | fuel + 1, suffix =>
    let candidate := folder ++ "/" ++ name ++ "-" ++ toString suffix ++ ".md"
    if vault.contains candidate then uniqueSuffixLoop vault folder name fuel (suffix + 1)
    else candidate

/-- `getUniqueFilePathInFolder` from `task-note-repository.ts`. -/
def getUniqueFilePathInFolder (vault : List String) (folder preferredFileName : String)
    (currentPath : Option String) : String :=
  let sanitizedName :=
    let s := sanitizeFileName (stripMdSuffix preferredFileName)
    if s = "" then "Task" else s
  let candidatePath := folder ++ "/" ++ sanitizedName ++ ".md"
  if ¬ vault.contains candidatePath then candidatePath
  else if currentPath = some candidatePath then candidatePath
  else uniqueSuffixLoop vault folder sanitizedName (vault.length + 1) 2

/-- `getUniqueTaskFilePath` from `task-note-repository.ts`: the sanitized
title, falling back to `Task-<id>`, suffixed with the remote id on
collision. -/
def getUniqueTaskFilePath (vault : List String) (folder taskTitle todoistId : String) :
    String :=
  let base :=
    let s := sanitizeFileName taskTitle
    if s = "" then "Task-" ++ todoistId else s
  let basePath := folder ++ "/" ++ base ++ ".md"
  if ¬ vault.contains basePath then basePath
  else folder ++ "/" ++ base ++ "-" ++ todoistId ++ ".md"

/-- `renameTaskFileToMatchTitle` from `task-note-repository.ts`; the
returned file carries the possibly changed path. -/
def renameTaskFileToMatchTitle (settings : TaskTodoistSettings) (vault : List String)
    (file : NoteFile) (title : String) : NoteFile :=
  if ¬ settings.autoRenameTaskFiles then file
  else
    let desiredBaseName := sanitizeFileName (jsTrim title)
    if desiredBaseName = "" ∨ file.basename = desiredBaseName then file
    else
      let folderPath := getFolderPath file.path
      let desiredPath :=
        getUniqueFilePathInFolder vault folderPath (desiredBaseName ++ ".md")
          (some file.path)
      if desiredPath = file.path then file
      else { file with path := desiredPath, basename := basenameOf desiredPath }

/-- The result of one upsert, with the number of vault mutations
(front-matter write, body write, rename) it performed. -/
structure UpsertOutcome where
  file : NoteFile
  created : Nat
  updated : Nat
  writes : Nat
deriving DecidableEq, Repr

/-- The front matter of the update branch of `updateTaskFile`, applied on
top of the note's current front matter (an absent block reads as an empty
object), in the source's write order. -/
def updateTaskFileFm (settings : TaskTodoistSettings) (clock : Clock) (fm0 : FM)
    (item : TodoistItem) (maps : ProjectSectionMaps) : FM :=
  let fm := applyStandardTaskFrontmatter settings clock fm0
  let fm := touchModifiedDate clock fm
  let fm := setTaskTitle fm item.content
  let fm := setTaskStatus fm
    (if optBoolTruthy item.checked then TaskStatus.done else TaskStatus.opn)
  let fm := fmSet fm "todoist_sync" (Val.bool true)
  let fm := fmSet fm "todoist_id" (Val.str item.id)
  let fm := fmSet fm "todoist_project_id" (Val.str item.project_id)
  let fm := fmSet fm "todoist_project_name"
    (Val.str ((jsMapGet maps.projectNameById item.project_id).getD "Unknown"))
  let fm := fmSet fm "todoist_section_id" (Val.str (item.section_id.getD ""))
  let fm := fmSet fm "todoist_section_name"
    (Val.str (if strTruthy item.section_id then
        (jsMapGet maps.sectionNameById (item.section_id.getD "")).getD ""
      else ""))
  let fm := fmSet fm "todoist_priority" (Val.num (item.priority.getD 1))
  let fm := fmSet fm "todoist_due" (Val.str ((item.due.bind TodoistDue.date).getD ""))
  let fm := fmSet fm "todoist_due_string"
    (Val.str ((item.due.bind TodoistDue.string).getD ""))
  let fm := fmSet fm "todoist_is_recurring"
    (Val.bool (optBoolTruthy (item.due.bind TodoistDue.is_recurring)))
  let fm := fmSet fm "todoist_last_imported_signature"
    (Val.str (buildRemoteImportSignature item maps))
  let fm := fmSet fm "todoist_last_synced_signature"
    (Val.str (buildTodoistSyncSignature
      { title := item.content
        description := item.description.getD ""
        isDone := optBoolTruthy item.checked
        isRecurring := optBoolTruthy (item.due.bind TodoistDue.is_recurring)
        projectId := some item.project_id
        sectionId := item.section_id
        dueDate := some ((item.due.bind TodoistDue.date).getD "")
        dueString := some ((item.due.bind TodoistDue.string).getD "") }))
  let fm := fmSet fm "todoist_labels" (Val.arr ((item.labels.getD []).map AVal.str))
  let fm := fmSet fm "todoist_parent_id" (Val.str (item.parent_id.getD ""))
  let fm := fmSet fm "todoist_sync_status" (Val.str "synced")
  let fm := if fmHas fm "sync_status" then fmDelete fm "sync_status" else fm
  fmSet fm "todoist_last_imported_at" (Val.str clock.isoNow)

/-- Whether the update branch appends the description
(`!hasBodyContent(...) && item.description?.trim()`). -/
def needsDescriptionBackfill (body : String) (item : TodoistItem) : Bool :=
  !hasBodyContent body && strTruthy (item.description.map jsTrim)

/-- The body after a description backfill
(`${fileContent.trimEnd()}\n\n${item.description.trim()}\n`, restricted to
the text after the front-matter block). -/
def backfillBody (body : String) (item : TodoistItem) : String :=
  jsTrimEnd body ++ "\n\n" ++ jsTrim (item.description.getD "") ++ "\n"

/-- `updateTaskFile` from `task-note-repository.ts`: skip every write when
the stored import signature matches the recomputed one — unless the body
is empty and the remote task has a description — otherwise rewrite the
front matter, backfill the description when needed, and auto-rename. -/
def updateTaskFile (settings : TaskTodoistSettings) (clock : Clock)
    (vault : List String) (file : NoteFile) (item : TodoistItem)
    (maps : ProjectSectionMaps) : UpsertOutcome :=
  let remoteImportSignature := buildRemoteImportSignature item maps
  let lastImportedSignature :=
    match file.fm with
    | some fm => (valAsString (fmGet fm "todoist_last_imported_signature")).getD ""
    | none => ""
  if lastImportedSignature = remoteImportSignature
      ∧ ¬ needsDescriptionBackfill file.body item then
    { file := file, created := 0, updated := 0, writes := 0 }
  else
    let fm' := updateTaskFileFm settings clock (file.fm.getD []) item maps
    let backfill := needsDescriptionBackfill file.body item
    let body' := if backfill then backfillBody file.body item else file.body
    let written := { file with fm := some fm', body := body' }
    let renamed := renameTaskFileToMatchTitle settings vault written item.content
    { file := renamed, created := 0, updated := 1
      writes := 1 + (if backfill then 1 else 0)
        + (if renamed.path = written.path then 0 else 1) }

/-- The front matter of a freshly created task note, reading
`buildNewFileContent`'s YAML lines as the metadata cache parses them
(unquoted `true`/`false` and numbers parse as booleans and numbers). -/
def buildNewFileFm (item : TodoistItem) (maps : ProjectSectionMaps)
    (settings : TaskTodoistSettings) (clock : Clock) : FM :=
  [("task_status", Val.str (if optBoolTruthy item.checked then "done" else "open")),
   ("task_done", Val.bool (optBoolTruthy item.checked)),
   ("created", Val.str clock.createdDate),
   ("modified", Val.str clock.modifiedDate),
   ("tags", Val.arr [AVal.str ((normalizeTag (some settings.defaultTaskTag)).getD "tasks")]),
   ("links", Val.arr []),
   ("task_title", Val.str item.content),
   ("todoist_sync", Val.bool true),
   ("todoist_sync_status", Val.str "synced"),
   ("todoist_id", Val.str item.id),
   ("todoist_project_id", Val.str item.project_id),
   ("todoist_project_name",
     Val.str ((jsMapGet maps.projectNameById item.project_id).getD "Unknown")),
   ("todoist_section_id", Val.str (item.section_id.getD "")),
   ("todoist_section_name",
     Val.str (if strTruthy item.section_id then
         (jsMapGet maps.sectionNameById (item.section_id.getD "")).getD ""
       else "")),
   ("todoist_priority", Val.num (item.priority.getD 1)),
   ("todoist_due", Val.str ((item.due.bind TodoistDue.date).getD "")),
   ("todoist_due_string", Val.str ((item.due.bind TodoistDue.string).getD "")),
   ("todoist_is_recurring",
     Val.bool (optBoolTruthy (item.due.bind TodoistDue.is_recurring))),
   ("todoist_last_imported_signature", Val.str (buildRemoteImportSignature item maps)),
   ("todoist_last_synced_signature",
     Val.str (buildTodoistSyncSignature
       { title := item.content
         description := item.description.getD ""
         isDone := optBoolTruthy item.checked
         isRecurring := optBoolTruthy (item.due.bind TodoistDue.is_recurring)
         projectId := some item.project_id
         sectionId := item.section_id
         dueDate := some ((item.due.bind TodoistDue.date).getD "")
         dueString := some ((item.due.bind TodoistDue.string).getD "") })),
   ("todoist_labels", Val.arr ((item.labels.getD []).map AVal.str)),
   ("todoist_parent_id", Val.str (item.parent_id.getD "")),
   ("todoist_has_children", Val.bool false),
   ("todoist_child_task_count", Val.num 0),
   ("todoist_child_tasks", Val.arr []),
   ("todoist_last_imported_at", Val.str clock.isoNow)]

/-- `createTaskFile` from `task-note-repository.ts`. -/
def createTaskFile (settings : TaskTodoistSettings) (clock : Clock)
    (vault : List String) (item : TodoistItem) (maps : ProjectSectionMaps) :
    UpsertOutcome :=
  let filePath :=
    getUniqueTaskFilePath vault settings.tasksFolderPath item.content item.id
  let file : NoteFile :=
    { path := filePath
      basename := basenameOf filePath
      fm := some (buildNewFileFm item maps settings clock)
      body := (item.description.map jsTrim).getD "" }
  { file := file, created := 1, updated := 0, writes := 1 }

/-! ## Ancestor inclusion (`sync-service.ts`) -/

/-- The `while` loop of `includeAncestorTasks`: follow parent pointers
through the item map, stopping on a falsy id (`''` or `null`), an already
seen id, or a failed lookup, collecting every ancestor found along the
way. -/
def ancestorWalk (allPairs : List (String × TodoistItem)) :
    Option String → List String → List (String × TodoistItem) →
    List (String × TodoistItem)
  | none, _, selected => selected
  | some pid, seen, selected =>
    if pid = "" then selected
    else if hseen : pid ∈ seen then selected
    else
      match h : jsMapGet allPairs pid with
      | none => selected
      | some parent =>
        ancestorWalk allPairs parent.parent_id (pid :: seen)
          (jsMapSet selected parent.id parent)
termination_by pid seen _ => (allPairs.filter (fun q => q.1 ∉ seen)).length
decreasing_by
  simp_wf
  obtain ⟨q, hfind, hq2⟩ := Option.map_eq_some'.mp h
  have hqmem : q ∈ allPairs := List.mem_reverse.mp (List.mem_of_find?_eq_some hfind)
  have hqk : q.1 = pid := by simpa using List.find?_some hfind
  have hstep : List.filter (fun q => !decide (q.1 = pid) && !decide (q.1 ∈ seen)) allPairs
      = List.filter (fun q => !decide (q.1 = pid))
          (List.filter (fun q => !decide (q.1 ∈ seen)) allPairs) :=
    Eq.symm (List.filter_filter _ _)
  rw [hstep]
  refine List.length_filter_lt_length_iff_exists.mpr ?_
  exact ⟨q, List.mem_filter.mpr ⟨hqmem, by simp [hseen, hqk]⟩, by simp [hqk]⟩

/-- `includeAncestorTasks` from `sync-service.ts`: the base items plus
every ancestor found by walking each base item's parent chain, in the
insertion order of the shared selection map. -/
def includeAncestorTasks (baseItems allItems : List TodoistItem) : List TodoistItem :=
  let allById := allItems.map (fun item => (item.id, item))
  let selectedBase := baseItems.foldl (fun sel item => jsMapSet sel item.id item) []
  let selectedFinal := baseItems.foldl
    (fun sel item => ancestorWalk allById item.parent_id [] sel) selectedBase
  selectedFinal.map Prod.snd

/-- Ancestor reachability through the snapshot, as the claim words it: one
or more parent-pointer steps, each resolved through the item map. -/
inductive ReachesAncestor (allPairs : List (String × TodoistItem)) :
    Option String → TodoistItem → Prop
  | head (pid : String) (a : TodoistItem) :
      jsMapGet allPairs pid = some a → ReachesAncestor allPairs (some pid) a
  | tail (pid : String) (b a : TodoistItem) :
      jsMapGet allPairs pid = some b → ReachesAncestor allPairs b.parent_id a →
      ReachesAncestor allPairs (some pid) a

/-- The selection map only holds entries that agree with the item map:
each stored value is what its key looks up to. -/
def selAgrees (P sel : List (String × TodoistItem)) : Prop :=
  ∀ q ∈ sel, jsMapGet P q.1 = some q.2

/-! ## Missing-entry detection (`sync-service.ts`) -/

/-- `SyncedTaskEntry`: a note (identified by its path) indexed under its
remote id. -/
structure SyncedTaskEntry where
  todoistId : String
  file : String
deriving DecidableEq, Repr

/-- `new Map(snapshot.items.map((item) => [item.id, item]))` from
`runImportSync`. -/
def activeItemById (items : List TodoistItem) : List (String × TodoistItem) :=
  items.map (fun item => (item.id, item))

/-- `findMissingEntries` from `sync-service.ts`: previously synced entries
whose id the active-item map does not contain. -/
def findMissingEntries (existingSyncedTasks : List SyncedTaskEntry)
    (activeById : List (String × TodoistItem)) : List SyncedTaskEntry :=
  existingSyncedTasks.filter (fun entry => !jsMapHas activeById entry.todoistId)

/-! ## Spec-side reading of the import rules (claim C8) -/

/-- The claim's "assigned to me" rule: if the toggle is set and both a
resolved user id and an item assignee exist, they must match. -/
def claimAssigneeRule (settings : TaskTodoistSettings) (userId : Option String)
    (item : TodoistItem) : Bool :=
  !(settings.autoImportAssignedToMeOnly && strTruthy userId
      && strTruthy item.responsible_uid) || item.responsible_uid == userId

/-- The claim's project-name match: the item's project, resolved by id
through the project list, case-insensitively matches a configured name. -/
def claimProjectNameMatches (projects : List TodoistProject)
    (settings : TaskTodoistSettings) (item : TodoistItem) : Bool :=
  match jsMapGet (projects.map (fun p => (p.id, p.name))) item.project_id with
  | some name =>
    (parseAllowedProjectNames settings.autoImportAllowedProjectNames).contains (jsToLower name)
  | none => false

/-- The claim's required-label rule. -/
def claimLabelRule (settings : TaskTodoistSettings) (item : TodoistItem) : Bool :=
  (jsToLower (jsTrim settings.autoImportRequiredLabel) == "")
    || ((item.labels.getD []).map jsToLower).contains
        (jsToLower (jsTrim settings.autoImportRequiredLabel))

/-- The import rules exactly as claim C8 words them: not deleted; assignee
rule; if the project scope is allow-list-by-name the project name must
match a configured allowed name; label rule. -/
def claimImportRuleOriginal (projects : List TodoistProject)
    (settings : TaskTodoistSettings) (userId : Option String)
    (item : TodoistItem) : Bool :=
  !optBoolTruthy item.is_deleted
    && claimAssigneeRule settings userId item
    && (!(settings.autoImportProjectScope == ImportProjectScope.allowListByName)
        || claimProjectNameMatches projects settings item)
    && claimLabelRule settings item

/-- Claim C8 amended: the allow-list rule applies only when at least one
allowed name is configured. -/
def claimImportRuleAmended (projects : List TodoistProject)
    (settings : TaskTodoistSettings) (userId : Option String)
    (item : TodoistItem) : Bool :=
  !optBoolTruthy item.is_deleted
    && claimAssigneeRule settings userId item
    && (!((settings.autoImportProjectScope == ImportProjectScope.allowListByName)
          && !(parseAllowedProjectNames settings.autoImportAllowedProjectNames).isEmpty)
        || claimProjectNameMatches projects settings item)
    && claimLabelRule settings item

/-! ## Spec-side reading of `getTaskStatus` (claim C10)

The four precedence rules of the claim, each an independent partial
verdict; the status is the first verdict, defaulting to open. -/

/-- Rule 1 of the claim: the boolean mirror `task_done` decides first. -/
def boolMirrorRule (v : Val) : Option TaskStatus :=
  if v = Val.bool true ∨ v = Val.str "true" then some TaskStatus.done
  else if v = Val.bool false ∨ v = Val.str "false" then some TaskStatus.opn
  else none

/-- Rule 2: `task_status`, `'done'`/`'open'` case-insensitive after trimming. -/
def statusKeyRule (v : Val) : Option TaskStatus :=
  match v with
  | Val.str s =>
    if jsToLower (jsTrim s) = "done" then some TaskStatus.done
    else if jsToLower (jsTrim s) = "open" then some TaskStatus.opn
    else none
  | _ => none

/-- Rule 3: the legacy `done` key, only able to yield done. -/
def legacyDoneRule (v : Val) : Option TaskStatus :=
  if v = Val.bool true ∨ v = Val.str "true" then some TaskStatus.done else none

/-- Rule 4: the legacy `status` key, only able to yield done. -/
def legacyStatusRule (v : Val) : Option TaskStatus :=
  match v with
  | Val.str s => if jsToLower (jsTrim s) = "done" then some TaskStatus.done else none
  | _ => none

/-- The claim's description of `getTaskStatus`: first applicable rule wins,
default open. -/
def getTaskStatusSpec (fm : FM) : TaskStatus :=
  ((boolMirrorRule (fmGet fm "task_done")).or
    ((statusKeyRule (fmGet fm "task_status")).or
      ((legacyDoneRule (fmGet fm "done")).or
        (legacyStatusRule (fmGet fm "status"))))).getD TaskStatus.opn

/-! ## Linked-checklist mirror (`linked-checklist-sync.ts`) -/

/-- A successful match of `LINKED_CHECKLIST_LINE_REGEX`: `lead` is capture
group 1 (indent, bullet and the whitespace after it), `mark` group 2,
`target` group 3, `aliasText` group 4, `trailing` group 5. -/
structure ChecklistLine where
  lead : String
  mark : Char
  target : String
  aliasText : Option String
  trailing : String
deriving DecidableEq, Repr

/-- The character class `[^\]|]` bounding the link target. -/
def notTargetEnd (c : Char) : Bool :=
  !(c == ']' || c == '|')

/-- The character class `[^\]]` bounding the link alias. -/
def notAliasEnd (c : Char) : Bool :=
  c != ']'

/-- `line.match(LINKED_CHECKLIST_LINE_REGEX)` for
`/^(\s*[-*+]\s+)\[([ xX])\]\s+\[\[([^\]|]+)(?:\|([^\]]+))?\]\](\s*)$/`,
unfolded into the deterministic scan the anchored regex performs: every
greedy run is bounded by a character its successor cannot accept, so the
engine never backtracks into a different match. -/
def parseChecklistLine (line : String) : Option ChecklistLine :=
  let cs := line.data
  let ws1 := cs.takeWhile jsSpaceChar
  match cs.dropWhile jsSpaceChar with
  | [] => none
  | bullet :: rest2 =>
    if bullet = '-' ∨ bullet = '*' ∨ bullet = '+' then
      let ws2 := rest2.takeWhile jsSpaceChar
      if ws2 = [] then none
      else
        match rest2.dropWhile jsSpaceChar with
        | '[' :: m :: ']' :: rest4 =>
          if m = ' ' ∨ m = 'x' ∨ m = 'X' then
            let ws3 := rest4.takeWhile jsSpaceChar
            if ws3 = [] then none
            else
              match rest4.dropWhile jsSpaceChar with
              | '[' :: '[' :: rest6 =>
                let tgt := rest6.takeWhile notTargetEnd
                if tgt = [] then none
                else
                  match rest6.dropWhile notTargetEnd with
                  | ']' :: ']' :: rest8 =>
                    if rest8.all jsSpaceChar then
                      some ⟨String.mk (ws1 ++ bullet :: ws2), m, String.mk tgt,
                        none, String.mk rest8⟩
                    else none
                  | '|' :: rest8 =>
                    let al := rest8.takeWhile notAliasEnd
                    if al = [] then none
                    else
                      match rest8.dropWhile notAliasEnd with
                      | ']' :: ']' :: rest10 =>
                        if rest10.all jsSpaceChar then
                          some ⟨String.mk (ws1 ++ bullet :: ws2), m,
                            String.mk tgt, some (String.mk al),
                            String.mk rest10⟩
                        else none
                      | _ => none
                  | _ => none
              | _ => none
          else none
        | _ => none
    else none

/-- The template-string rewrite of a matched line.  Group 4 matches `[^\]]+`,
so when present it is nonempty and its truthiness test is its presence. -/
def rewriteLine (cl : ChecklistLine) (shouldBeChecked : Bool) : String :=
  cl.lead ++ "[" ++ (if shouldBeChecked then "x" else " ") ++ "] [[" ++
    cl.target ++
    (match cl.aliasText with
     | some al => "|" ++ al
     | none => "") ++ "]]" ++ cl.trailing

/-- The characters the optional alias group contributes to a rebuilt line. -/
def aliasSegment : Option (List Char) → List Char
  | some al => '|' :: al
  | none => []

/-- One markdown file as the mirror pass sees it. -/
structure MirrorFile where
  path : String
  content : String
deriving DecidableEq, Repr

/-- The vault surface `syncLinkedChecklistStates` reads: the markdown file
list, `metadataCache.getFirstLinkpathDest` (`none` when the link resolves to
nothing, or not to a `TFile`), and the cached front matter of a resolved
path (`none` when the cache has none). -/
structure MirrorEnv where
  files : List MirrorFile
  resolve : String → String → Option String
  fmOf : String → Option FM

/-- `getLinkedTaskStatus`: `null` without cached front matter, otherwise
`getTaskStatus` of it (both `'open'` and `'done'` are truthy strings). -/
def getLinkedTaskStatus (env : MirrorEnv) (path : String) : Option TaskStatus :=
  (env.fmOf path).map getTaskStatus

/-- Inner loop of `split('\n')`. -/
def splitNlAux : List Char → List Char → List String
  | [], acc => [String.mk acc.reverse]
  | c :: cs, acc =>
    if c = '\n' then String.mk acc.reverse :: splitNlAux cs []
    else splitNlAux cs (c :: acc)

/-- `content.split('\n')` (`''.split('\n')` is `['']`). -/
def jsSplitNl (s : String) : List String :=
  splitNlAux s.data []

/-- `lines.join('\n')`. -/
def joinLines : List String → String
  | [] => ""
  | [l] => l
  | l :: ls => l ++ "\n" ++ joinLines ls

/-- The body of the per-line loop: the untouched line with a 0 count, or the
rewritten line with a 1 count. -/
def syncLine (env : MirrorEnv) (path line : String) : String × Nat :=
  match parseChecklistLine line with
  | none => (line, 0)
  | some cl =>
    let linkTarget := jsTrim cl.target
    if linkTarget = "" then (line, 0)
    else
      match env.resolve linkTarget path with
      | none => (line, 0)
      | some notePath =>
        match getLinkedTaskStatus env notePath with
        | none => (line, 0)
        | some linkedStatus =>
          let shouldBeChecked := linkedStatus == TaskStatus.done
          let isChecked := jsToLower (String.mk [cl.mark]) == "x"
          if isChecked == shouldBeChecked then (line, 0)
          else (rewriteLine cl shouldBeChecked, 1)

/-- One file's pass: every line mapped through the loop body, the results
rejoined, the per-line counts summed. -/
def syncFileContent (env : MirrorEnv) (path content : String) : String × Nat :=
  let results := (jsSplitNl content).map (syncLine env path)
  (joinLines (results.map Prod.fst), (results.map Prod.snd).sum)

/-- One file's pass with the `fileChanged` gate: `vault.modify` runs only
when some line was rewritten, so an untouched file keeps its exact bytes. -/
def syncFile (env : MirrorEnv) (f : MirrorFile) : MirrorFile × Nat :=
  let r := syncFileContent env f.path f.content
  (if r.2 = 0 then f else ⟨f.path, r.1⟩, r.2)

/-- `syncLinkedChecklistStates`: the vault after the pass and the returned
changed-line count. -/
def syncLinkedChecklistStates (env : MirrorEnv) : List MirrorFile × Nat :=
  (env.files.map fun f => (syncFile env f).1,
   (env.files.map fun f => (syncFile env f).2).sum)

/-- Claim side: the checkbox mark read as a checked flag. -/
def markChecked (m : Char) : Bool :=
  m == 'x' || m == 'X'

/-- Claim side: the completion status of the note a parsed checklist line
links to, when the link is nonblank, resolves, and the note's status is
known. -/
def statusForLine (env : MirrorEnv) (path : String) (cl : ChecklistLine) :
    Option TaskStatus :=
  if jsTrim cl.target = "" then none
  else
    match env.resolve (jsTrim cl.target) path with
    | none => none
    | some notePath => getLinkedTaskStatus env notePath

/-- Claim side: a line the mirror must rewrite — a checklist line whose
mark differs from the linked note's completion status. -/
def lineNeedsRewrite (env : MirrorEnv) (path line : String) : Bool :=
  match parseChecklistLine line with
  | none => false
  | some cl =>
    match statusForLine env path cl with
    | none => false
    | some st => markChecked cl.mark != (st == TaskStatus.done)

/-- The shape invariants every successful regex match satisfies; they are
what makes the template rewrite itself re-parse. -/
def ChecklistLineWf (cl : ChecklistLine) : Prop :=
  (∃ ws1 bullet ws2,
      cl.lead.data = ws1 ++ bullet :: ws2
      ∧ (∀ c ∈ ws1, jsSpaceChar c = true)
      ∧ (bullet = '-' ∨ bullet = '*' ∨ bullet = '+')
      ∧ ws2 ≠ []
      ∧ (∀ c ∈ ws2, jsSpaceChar c = true))
  ∧ (cl.mark = ' ' ∨ cl.mark = 'x' ∨ cl.mark = 'X')
  ∧ cl.target.data ≠ []
  ∧ (∀ c ∈ cl.target.data, notTargetEnd c = true)
  ∧ (∀ al, cl.aliasText = some al →
      al.data ≠ [] ∧ ∀ c ∈ al.data, notAliasEnd c = true)
  ∧ (∀ c ∈ cl.trailing.data, jsSpaceChar c = true)

/-! ## Concrete sample inputs used by witnesses and counterexamples -/

/-- A live remote item in project `p1`, used to exercise the import filter. -/
def sampleItem : TodoistItem :=
  { id := "1", content := "Buy milk", project_id := "p1" }

/-- The project list resolving `p1` to `Errands`. -/
def sampleProjects : List TodoistProject :=
  [{ id := "p1", name := "Errands" }]

/-- Default-like settings: auto import enabled, allow-list scope with an
empty configured name list, no label filter, no assignee filter. -/
def sampleSettings : TaskTodoistSettings :=
  { tasksFolderPath := "Tasks"
    defaultTaskTag := "tasks"
    autoRenameTaskFiles := true
    archiveMode := ArchiveMode.moveToArchiveFolder
    archiveFolderPath := "Tasks/_archive"
    autoImportEnabled := true
    autoImportProjectScope := ImportProjectScope.allowListByName
    autoImportAllowedProjectNames := ""
    autoImportRequiredLabel := ""
    autoImportAssignedToMeOnly := false }

/-- Fixed formatted timestamps for sample runs. -/
def sampleClock : Clock :=
  { createdDate := "2026-01-05"
    modifiedDate := "2026-01-05T10:30"
    isoNow := "2026-01-05T10:30:00.000Z" }

/-- A remote item present in the fresh snapshot but flagged deleted. -/
def deletedRemoteItem : TodoistItem :=
  { id := "9", content := "Old task", project_id := "p1"
    checked := some false, is_deleted := some true }

/-- The locally synced note indexed under the deleted item's id. -/
def deletedRemoteEntry : SyncedTaskEntry :=
  { todoistId := "9", file := "Tasks/Old task.md" }

/-- A dirty note's pending update whose front matter carries a due date
(`todoist_due: 2025-01-15`). -/
def rentPendingUpdate : PendingLocalUpdate :=
  { file := "Tasks/Pay rent.md", todoistId := "42", title := "Pay rent"
    description := "", isDone := false, isRecurring := false
    syncSignature := "", dueDate := some "2025-01-15" }

/-- A recurring task's pending update marking it done. -/
def recurringPendingUpdate : PendingLocalUpdate :=
  { file := "Tasks/Water plants.md", todoistId := "77", title := "Water plants"
    description := "", isDone := true, isRecurring := true
    syncSignature := "", dueString := some "every day" }

/-- The front matter of a queued local create before its first push. -/
def queuedCreateNoteFm : FM :=
  [("task_status", Val.str "open"), ("task_done", Val.bool false),
   ("created", Val.str "2026-01-04"), ("modified", Val.str "2026-01-04T09:00"),
   ("tags", Val.arr [AVal.str "tasks"]), ("links", Val.arr []),
   ("task_title", Val.str "Buy milk"), ("todoist_sync", Val.bool true),
   ("todoist_sync_status", Val.str "queued_local_create")]

/-- The signature tuple of the false-positive dirty sample note. -/
def healSigInput : SyncSigInput :=
  { title := "Buy milk", description := "", isDone := false, isRecurring := false }

/-- Front matter of a note flagged `dirty_local` whose stored last-synced
signature equals the signature its current state hashes to. -/
def healNoteFm : FM :=
  [("task_title", Val.str "Buy milk"), ("task_status", Val.str "open"),
   ("task_done", Val.bool false), ("created", Val.str "2026-01-04"),
   ("tags", Val.arr [AVal.str "tasks"]), ("links", Val.arr []),
   ("todoist_sync", Val.bool true), ("todoist_id", Val.str "55"),
   ("todoist_sync_status", Val.str "dirty_local"),
   ("todoist_last_synced_signature", Val.str (buildTodoistSyncSignature healSigInput))]

/-- The false-positive dirty sample note. -/
def healNote : NoteFile :=
  { path := "Tasks/Buy milk.md", basename := "Buy milk"
    fm := some healNoteFm, body := "" }

/-- The spec's ancestor example, item A: importable, child of B. -/
def wItemA : TodoistItem :=
  { id := "a", content := "A", project_id := "p1", parent_id := some "b" }

/-- Item B: A's parent, itself a child of C (and not importable). -/
def wItemB : TodoistItem :=
  { id := "b", content := "B", project_id := "p1", parent_id := some "c" }

/-- Item C: B's parent, whose own parent pointer loops back to B. -/
def wItemC : TodoistItem :=
  { id := "c", content := "C", project_id := "p1", parent_id := some "b" }

/-- The snapshot items of the ancestor example. -/
def wSnapshot : List TodoistItem := [wItemA, wItemB, wItemC]

/-- A remote item that has gained a description. -/
def backfillSampleItem : TodoistItem :=
  { id := "5", content := "Spec doc", project_id := "p1"
    description := some "Details here", checked := some false }

/-- Name maps resolving `p1`. -/
def backfillSampleMaps : ProjectSectionMaps :=
  { projectNameById := [("p1", "Errands")], sectionNameById := [] }

/-- A note whose stored import signature already matches the remote item
but whose body is empty. -/
def backfillSampleFile : NoteFile :=
  { path := "Tasks/Spec doc.md", basename := "Spec doc"
    fm := some [("todoist_last_imported_signature",
      Val.str (buildRemoteImportSignature backfillSampleItem backfillSampleMaps))]
    body := "" }

/-- The parsed form of the checklist line the mirror witness rewrites. -/
def clW : ChecklistLine :=
  ⟨"- ", ' ', "Tasks/Buy milk", some "Buy", ""⟩

/-- A one-file vault whose checklist line links to a done task note. -/
def mirrorEnvW : MirrorEnv :=
  { files := [⟨"Daily.md", "# Plan\n- [ ] [[Tasks/Buy milk|Buy]]\nlater"⟩]
    resolve := fun t _ =>
      if t = "Tasks/Buy milk" then some "Tasks/Buy milk.md" else none
    fmOf := fun p =>
      if p = "Tasks/Buy milk.md" then
        some [("task_status", Val.str "done")]
      else none }

end TaskTodoist

/-! # Theorems -/

namespace TaskTodoist

/-- Reading a key just written returns the written value. -/
theorem fmGet_fmSet_self (fm : FM) (k : String) (v : Val) :
    fmGet (fmSet fm k v) k = v := by
  induction fm with
  | nil => simp [fmSet, fmGet, List.find?]
  | cons p t ih =>
    by_cases h : p.1 = k
    · simp [fmSet, fmGet, List.find?, h]
    · simpa [fmSet, fmGet, List.find?, h] using ih

/-- Writing one key leaves every other key's reading unchanged. -/
theorem fmGet_fmSet_ne (fm : FM) (k k' : String) (v : Val) (h : k' ≠ k) :
    fmGet (fmSet fm k v) k' = fmGet fm k' := by
  induction fm with
  | nil => simp [fmSet, fmGet, List.find?, Ne.symm h]
  | cons p t ih =>
    obtain ⟨pk, pv⟩ := p
    by_cases hp : pk = k
    · subst hp
      have hne : ¬ pk = k' := fun hh => h (hh ▸ rfl)
      simp [fmSet, fmGet, List.find?, hne]
    · by_cases hp' : pk = k'
      · subst hp'
        simp [fmSet, fmGet, List.find?, hp]
      · simpa [fmSet, fmGet, List.find?, hp, hp'] using ih

/-- Deleting one key leaves every other key's reading unchanged. -/
theorem fmGet_fmDelete_ne (fm : FM) (k k' : String) (h : k' ≠ k) :
    fmGet (fmDelete fm k) k' = fmGet fm k' := by
  induction fm with
  | nil => simp [fmDelete, fmGet, List.find?]
  | cons p t ih =>
    obtain ⟨pk, pv⟩ := p
    by_cases hp : pk = k
    · subst hp
      have hne : ¬ pk = k' := fun hh => h (hh ▸ rfl)
      simpa [fmDelete, fmGet, List.find?, hne] using ih
    · by_cases hp' : pk = k'
      · subst hp'
        simp [fmDelete, fmGet, List.find?, hp]
      · simpa [fmDelete, fmGet, List.find?, hp, hp'] using ih

/-- The self-healing rewrite leaves the note reading `synced`. -/
theorem selfHealFm_status (settings : TaskTodoistSettings) (clock : Clock) (fm : FM) :
    fmGet (selfHealFm settings clock fm) "todoist_sync_status" = Val.str "synced" := by
  unfold selfHealFm
  by_cases h : fmHas (fmSet (applyStandardTaskFrontmatter settings clock fm)
      "todoist_sync_status" (Val.str "synced")) "sync_status" = true
  · simp only [h, if_true]
    rw [fmGet_fmDelete_ne _ _ _ (by decide), fmGet_fmSet_self]
  · simp only [Bool.not_eq_true] at h
    simp only [h, Bool.false_eq_true, if_false]
    rw [fmGet_fmSet_self]

/-- `statusKeyRule` in terms of the normalized string reading. -/
theorem statusKeyRule_eq_valLower (v : Val) :
    statusKeyRule v =
      (if valLower v = "done" then some TaskStatus.done
       else if valLower v = "open" then some TaskStatus.opn else none) := by
  cases v <;> simp [statusKeyRule, valLower, valAsString]

/-- `legacyStatusRule` in terms of the normalized string reading. -/
theorem legacyStatusRule_eq_valLower (v : Val) :
    legacyStatusRule v =
      (if valLower v = "done" then some TaskStatus.done else none) := by
  cases v <;> simp [legacyStatusRule, valLower, valAsString]

/-- C10: `getTaskStatus` is a total function into `{open, done}` that
agrees, on every front-matter object, with the claim's precedence
description: the `task_done` boolean mirror decides first, then
`task_status` (`'done'`/`'open'`, case-insensitive after trimming), then the
legacy `done` key (only able to yield done), then the legacy `status` key
(only able to yield done), otherwise open. -/
theorem getTaskStatus_matches_precedence_spec (fm : FM) :
    getTaskStatus fm = getTaskStatusSpec fm := by
  unfold getTaskStatus getTaskStatusSpec
  rw [statusKeyRule_eq_valLower, legacyStatusRule_eq_valLower]
  by_cases h1 : fmGet fm "task_done" = Val.bool true ∨ fmGet fm "task_done" = Val.str "true"
  · simp [boolMirrorRule, h1, Option.or]
  · by_cases h2 : fmGet fm "task_done" = Val.bool false ∨ fmGet fm "task_done" = Val.str "false"
    · simp [boolMirrorRule, h1, h2, Option.or]
    · by_cases hd : valLower (fmGet fm "task_status") = "done"
      · simp [boolMirrorRule, h1, h2, hd, Option.or]
      · by_cases ho : valLower (fmGet fm "task_status") = "open"
        · simp [boolMirrorRule, h1, h2, hd, ho, Option.or]
        · by_cases h3 : fmGet fm "done" = Val.bool true ∨ fmGet fm "done" = Val.str "true"
          · simp [boolMirrorRule, legacyDoneRule, h1, h2, hd, ho, h3, Option.or]
          · by_cases hds : valLower (fmGet fm "status") = "done"
            · simp [boolMirrorRule, legacyDoneRule, h1, h2, hd, ho, h3, hds, Option.or]
            · simp [boolMirrorRule, legacyDoneRule, h1, h2, hd, ho, h3, hds, Option.or]

/-- Parsed allowed names are never the empty string. -/
theorem parseAllowedProjectNames_no_empty (r : String) :
    "" ∉ parseAllowedProjectNames r := by
  intro h
  have := List.of_mem_filter h
  simp at this

/-- The source's allow-list test (truthy lowercased project name that the
configured set `has`) agrees with the claim's project-name match. -/
theorem allowListTest_eq_claimMatch (projects : List TodoistProject)
    (settings : TaskTodoistSettings) (item : TodoistItem) :
    (strTruthy ((jsMapGet (projects.map (fun p => (p.id, p.name))) item.project_id).map
        jsToLower)
       && (parseAllowedProjectNames settings.autoImportAllowedProjectNames).contains
            (((jsMapGet (projects.map (fun p => (p.id, p.name))) item.project_id).map
              jsToLower).getD ""))
      = claimProjectNameMatches projects settings item := by
  cases h : jsMapGet (projects.map (fun p => (p.id, p.name))) item.project_id with
  | none => simp [claimProjectNameMatches, h, strTruthy]
  | some name =>
    by_cases he : jsToLower name = ""
    · simp [claimProjectNameMatches, h, strTruthy, he, parseAllowedProjectNames_no_empty]
    · simp [claimProjectNameMatches, h, strTruthy, he]

/-- The claim's label rule written as the source's conditional branch. -/
theorem claimLabelRule_eq_branch (settings : TaskTodoistSettings) (item : TodoistItem) :
    claimLabelRule settings item
      = (if jsToLower (jsTrim settings.autoImportRequiredLabel) ≠ "" then
          ((item.labels.getD []).map jsToLower).contains
            (jsToLower (jsTrim settings.autoImportRequiredLabel))
        else true) := by
  by_cases h : jsToLower (jsTrim settings.autoImportRequiredLabel) = "" <;>
    simp [claimLabelRule, h]

/-- Pointwise: the filter's per-item check equals the amended claim rule. -/
theorem importItemCheck_eq_claimAmended (projects : List TodoistProject)
    (settings : TaskTodoistSettings) (userId : Option String) (item : TodoistItem) :
    importItemCheck (projects.map (fun p => (p.id, p.name)))
      (parseAllowedProjectNames settings.autoImportAllowedProjectNames)
      (jsToLower (jsTrim settings.autoImportRequiredLabel)) settings userId item
      = claimImportRuleAmended projects settings userId item := by
  have hmatch := allowListTest_eq_claimMatch projects settings item
  have hlabel := claimLabelRule_eq_branch settings item
  unfold importItemCheck claimImportRuleAmended claimAssigneeRule
  rw [← hmatch, hlabel]
  rcases Bool.eq_false_or_eq_true (optBoolTruthy item.is_deleted) with hd | hd <;>
    rcases Bool.eq_false_or_eq_true (settings.autoImportAssignedToMeOnly
      && strTruthy userId && strTruthy item.responsible_uid) with hg | hg <;>
    rcases Bool.eq_false_or_eq_true (item.responsible_uid == userId) with he | he <;>
    rcases Bool.eq_false_or_eq_true
      ((settings.autoImportProjectScope == ImportProjectScope.allowListByName)
        && !(parseAllowedProjectNames settings.autoImportAllowedProjectNames).isEmpty)
      with hs | hs <;>
    rcases Bool.eq_false_or_eq_true (strTruthy ((jsMapGet
      (projects.map (fun p => (p.id, p.name))) item.project_id).map jsToLower))
      with ht | ht <;>
    rcases Bool.eq_false_or_eq_true
      ((parseAllowedProjectNames settings.autoImportAllowedProjectNames).contains
        (((jsMapGet (projects.map (fun p => (p.id, p.name))) item.project_id).map
          jsToLower).getD "")) with hc | hc <;>
    simp [hd, hg, he, hs, ht, hc, bne]

/-- C8 (amended): with auto import enabled, the import filter returns
exactly the items passing the claim's rules — not deleted, assignee rule,
allow-list rule (when the scope is allow-list-by-name and at least one
allowed name is configured), required-label rule — preserving input
order. -/
theorem filterImportableItems_eq_claim_rules (items : List TodoistItem)
    (projects : List TodoistProject) (settings : TaskTodoistSettings)
    (userId : Option String) (h : settings.autoImportEnabled = true) :
    filterImportableItems items projects settings userId
      = items.filter (claimImportRuleAmended projects settings userId) := by
  unfold filterImportableItems
  rw [h]
  simp only [Bool.not_true, if_false, ite_false, Bool.false_eq_true]
  exact List.filter_congr (fun item _ =>
    importItemCheck_eq_claimAmended projects settings userId item)

/-- Witness for C8's amended theorem at a concrete input. -/
theorem filterImportableItems_eq_claim_rules_witness :
    sampleSettings.autoImportEnabled = true ∧
      filterImportableItems [sampleItem] sampleProjects sampleSettings none
        = [sampleItem].filter (claimImportRuleAmended sampleProjects sampleSettings none) :=
  ⟨rfl, filterImportableItems_eq_claim_rules [sampleItem] sampleProjects sampleSettings
    none rfl⟩

/-- C8 counterexample: with the allow-list scope selected but an empty
configured name list (the default settings), the filter keeps an item whose
project name matches no configured allowed name, so the claim's unamended
rule set does not describe the output. -/
theorem filterImportableItems_claim_counterexample :
    filterImportableItems [sampleItem] sampleProjects sampleSettings none
      ≠ [sampleItem].filter (claimImportRuleOriginal sampleProjects sampleSettings none) := by
  decide

/-- C6: a note flagged `dirty_local` carrying a remote id whose recomputed
local signature equals its stored `todoist_last_synced_signature` is
reverted to `synced` by the `listPendingLocalUpdates` scan and contributes
no pending entry; and every entry of the returned pending list originates
from some scanned file's own step, so no update command is pushed for the
reverted note during that pass. -/
theorem dirty_false_positive_reverts_without_push
    (settings : TaskTodoistSettings) (clock : Clock) (files : List NoteFile)
    (f : NoteFile) (fm : FM)
    (hfm : f.fm = some fm)
    (hfolder : f.path = settings.tasksFolderPath
      ∨ strStartsWith f.path (settings.tasksFolderPath ++ "/") = true)
    (hdirty : readSyncStatusKeys fm = "dirty_local")
    (hid : readTrimmedTodoistId fm ≠ "")
    (htitle : jsTrim (getTaskTitle fm f.basename) ≠ "")
    (hsig : readLastSyncedSignature fm = noteLocalSignature fm f.basename f.body) :
    (listPendingLocalUpdatesStep settings clock f).2 = none
    ∧ ((listPendingLocalUpdatesStep settings clock f).1.fm.map
        (fun fm' => fmGet fm' "todoist_sync_status")) = some (Val.str "synced")
    ∧ ∀ p ∈ (listPendingLocalUpdates settings clock files).2,
        ∃ g ∈ files, (listPendingLocalUpdatesStep settings clock g).2 = some p := by
  have hstep : listPendingLocalUpdatesStep settings clock f
      = ({ f with fm := some (selfHealFm settings clock fm) }, none) := by
    unfold listPendingLocalUpdatesStep
    rw [if_neg (not_not_intro hfolder)]
    simp only [hfm]
    rw [if_neg (fun hne => hne hdirty), if_neg hid, if_neg htitle,
      if_pos ⟨hdirty, hsig⟩]
  refine ⟨by rw [hstep], ?_, ?_⟩
  · rw [hstep]
    simp [selfHealFm_status]
  · intro p hp
    exact List.mem_filterMap.mp hp

set_option maxRecDepth 100000 in
/-- Witness for C6 at a concrete false-positive dirty note. -/
theorem dirty_false_positive_reverts_without_push_witness :
    (readSyncStatusKeys healNoteFm = "dirty_local"
      ∧ readLastSyncedSignature healNoteFm = noteLocalSignature healNoteFm "Buy milk" "")
    ∧ ((listPendingLocalUpdatesStep sampleSettings sampleClock healNote).2 = none
      ∧ ((listPendingLocalUpdatesStep sampleSettings sampleClock healNote).1.fm.map
          (fun fm' => fmGet fm' "todoist_sync_status")) = some (Val.str "synced")
      ∧ ∀ p ∈ (listPendingLocalUpdates sampleSettings sampleClock [healNote]).2,
          ∃ g ∈ [healNote],
            (listPendingLocalUpdatesStep sampleSettings sampleClock g).2 = some p) :=
  ⟨⟨by decide, by decide⟩,
   dirty_false_positive_reverts_without_push sampleSettings sampleClock [healNote] healNote
     healNoteFm rfl (Or.inr (by decide)) (by decide) (by decide) (by decide) (by decide)⟩

/-- A string containing a non-whitespace character trims non-empty. -/
theorem jsTrim_ne_empty_of_nonws (s : String) (c : Char) (hc : c ∈ s.data)
    (hw : jsSpaceChar c = false) : jsTrim s ≠ "" := by
  intro h
  have hdata :
      ((s.data.dropWhile jsSpaceChar).reverse.dropWhile jsSpaceChar).reverse = [] := by
    simpa [jsTrim] using congrArg String.data h
  rw [List.reverse_eq_nil_iff] at hdata
  have hall : ∀ x ∈ (s.data.dropWhile jsSpaceChar).reverse, jsSpaceChar x = true :=
    List.dropWhile_eq_nil_iff.mp hdata
  have hsplit : c ∈ s.data.takeWhile jsSpaceChar ++ s.data.dropWhile jsSpaceChar := by
    rw [List.takeWhile_append_dropWhile jsSpaceChar s.data]
    exact hc
  rcases List.mem_append.mp hsplit with hmem | hmem
  · exact absurd (List.mem_takeWhile_imp hmem) (by simp [hw])
  · exact absurd (hall c (List.mem_reverse.mpr hmem)) (by simp [hw])

/-- A non-empty trim contains a non-whitespace character. -/
theorem exists_nonws_of_jsTrim_ne (s : String) (h : jsTrim s ≠ "") :
    ∃ c ∈ (jsTrim s).data, jsSpaceChar c = false := by
  have hne : ((s.data.dropWhile jsSpaceChar).reverse.dropWhile jsSpaceChar) ≠ [] := by
    intro hnil
    apply h
    show String.mk
      (((s.data.dropWhile jsSpaceChar).reverse.dropWhile jsSpaceChar).reverse) = ""
    rw [hnil]
    rfl
  have hlen :
      0 < ((s.data.dropWhile jsSpaceChar).reverse.dropWhile jsSpaceChar).length :=
    List.length_pos.mpr hne
  refine ⟨((s.data.dropWhile jsSpaceChar).reverse.dropWhile jsSpaceChar).get ⟨0, hlen⟩,
    ?_, ?_⟩
  · show _ ∈ (((s.data.dropWhile jsSpaceChar).reverse.dropWhile jsSpaceChar).reverse)
    rw [List.mem_reverse]
    exact List.get_mem _ 0 hlen
  · have := List.dropWhile_get_zero_not jsSpaceChar
      (s.data.dropWhile jsSpaceChar).reverse hlen
    simpa using this

/-- With a real description, the backfilled body is non-empty. -/
theorem hasBody_backfillBody (body : String) (item : TodoistItem)
    (h : strTruthy (item.description.map jsTrim) = true) :
    hasBodyContent (backfillBody body item) = true := by
  rcases hd : item.description with _ | d
  · rw [hd] at h
    simp [strTruthy] at h
  · rw [hd] at h
    have hne : jsTrim d ≠ "" := by simpa [strTruthy] using h
    obtain ⟨c, hc, hw⟩ := exists_nonws_of_jsTrim_ne d hne
    have hmem : c ∈ (backfillBody body item).data := by
      simp only [backfillBody, hd, Option.getD_some, String.data_append, List.mem_append]
      exact Or.inl (Or.inr hc)
    have := jsTrim_ne_empty_of_nonws (backfillBody body item) c hmem hw
    simpa [hasBodyContent] using this

/-- Renaming changes only the path and basename. -/
theorem rename_preserves_fm_body (settings : TaskTodoistSettings) (vault : List String)
    (file : NoteFile) (title : String) :
    (renameTaskFileToMatchTitle settings vault file title).fm = file.fm
    ∧ (renameTaskFileToMatchTitle settings vault file title).body = file.body := by
  simp only [renameTaskFileToMatchTitle]
  split_ifs <;> exact ⟨rfl, rfl⟩

/-- A conditional key deletion leaves other keys unchanged. -/
theorem fmGet_optDelete (fm : FM) (k k' : String) (h : k' ≠ k) :
    fmGet (if fmHas fm k then fmDelete fm k else fm) k' = fmGet fm k' := by
  split
  · exact fmGet_fmDelete_ne fm k k' h
  · rfl

/-- The update branch stores the recomputed import signature. -/
theorem updateTaskFileFm_imported_sig (settings : TaskTodoistSettings) (clock : Clock)
    (fm0 : FM) (item : TodoistItem) (maps : ProjectSectionMaps) :
    fmGet (updateTaskFileFm settings clock fm0 item maps)
        "todoist_last_imported_signature"
      = Val.str (buildRemoteImportSignature item maps) := by
  simp only [updateTaskFileFm]
  rw [fmGet_fmSet_ne _ _ _ _ (by decide), fmGet_optDelete _ _ _ (by decide),
    fmGet_fmSet_ne _ _ _ _ (by decide), fmGet_fmSet_ne _ _ _ _ (by decide),
    fmGet_fmSet_ne _ _ _ _ (by decide), fmGet_fmSet_ne _ _ _ _ (by decide),
    fmGet_fmSet_self]

/-- A fresh note stores the import signature of the item it materializes. -/
theorem buildNewFileFm_imported_sig (item : TodoistItem) (maps : ProjectSectionMaps)
    (settings : TaskTodoistSettings) (clock : Clock) :
    fmGet (buildNewFileFm item maps settings clock) "todoist_last_imported_signature"
      = Val.str (buildRemoteImportSignature item maps) := by
  simp [buildNewFileFm, fmGet, List.find?]

/-- A note whose stored import signature matches and needs no backfill is
returned untouched with zero counts and zero writes. -/
theorem updateTaskFile_shortCircuit (settings : TaskTodoistSettings) (clock : Clock)
    (vault : List String) (file : NoteFile) (item : TodoistItem)
    (maps : ProjectSectionMaps)
    (hsig : (match file.fm with
      | some fm => (valAsString (fmGet fm "todoist_last_imported_signature")).getD ""
      | none => "") = buildRemoteImportSignature item maps)
    (hb : needsDescriptionBackfill file.body item = false) :
    updateTaskFile settings clock vault file item maps
      = { file := file, created := 0, updated := 0, writes := 0 } := by
  unfold updateTaskFile
  rw [if_pos ⟨hsig, by simp [hb]⟩]

/-- C5: upsert is idempotent through the import-signature short-circuit.
Running `updateTaskFile` again on the note a first `updateTaskFile` or
`createTaskFile` run just wrote for an unchanged remote item performs zero
writes and returns `{created := 0, updated := 0}`, returning the note
unchanged, because the stored `todoist_last_imported_signature` equals the
recomputed remote-import signature; the sole exception is description
backfill: with a matching signature but an empty body and a non-empty
remote description, the full update (front-matter write and body append)
runs anyway. -/
theorem upsert_second_run_is_noop :
    (∀ (settings : TaskTodoistSettings) (clock clock' : Clock)
        (vault vault' : List String) (file : NoteFile) (item : TodoistItem)
        (maps : ProjectSectionMaps),
      updateTaskFile settings clock' vault'
          (updateTaskFile settings clock vault file item maps).file item maps
        = { file := (updateTaskFile settings clock vault file item maps).file
            created := 0, updated := 0, writes := 0 })
    ∧ (∀ (settings : TaskTodoistSettings) (clock clock' : Clock)
        (vault vault' : List String) (item : TodoistItem) (maps : ProjectSectionMaps),
      updateTaskFile settings clock' vault'
          (createTaskFile settings clock vault item maps).file item maps
        = { file := (createTaskFile settings clock vault item maps).file
            created := 0, updated := 0, writes := 0 })
    ∧ (∀ (settings : TaskTodoistSettings) (clock : Clock) (vault : List String)
        (file : NoteFile) (item : TodoistItem) (maps : ProjectSectionMaps),
      (match file.fm with
        | some fm => (valAsString (fmGet fm "todoist_last_imported_signature")).getD ""
        | none => "") = buildRemoteImportSignature item maps →
      hasBodyContent file.body = false →
      strTruthy (item.description.map jsTrim) = true →
      (updateTaskFile settings clock vault file item maps).updated = 1
        ∧ 2 ≤ (updateTaskFile settings clock vault file item maps).writes) := by
  refine ⟨?_, ?_, ?_⟩
  · intro settings clock clock' vault vault' file item maps
    by_cases h : (match file.fm with
        | some fm => (valAsString (fmGet fm "todoist_last_imported_signature")).getD ""
        | none => "") = buildRemoteImportSignature item maps
      ∧ ¬ needsDescriptionBackfill file.body item = true
    · rw [updateTaskFile_shortCircuit settings clock vault file item maps h.1
        (by simpa using h.2)]
      exact updateTaskFile_shortCircuit settings clock' vault' file item maps h.1
        (by simpa using h.2)
    · have hfile : (updateTaskFile settings clock vault file item maps).file
          = renameTaskFileToMatchTitle settings vault
              { file with
                fm := some (updateTaskFileFm settings clock (file.fm.getD []) item maps)
                body := if needsDescriptionBackfill file.body item then
                    backfillBody file.body item
                  else file.body }
              item.content := by
        unfold updateTaskFile
        rw [if_neg h]
      rw [hfile]
      apply updateTaskFile_shortCircuit
      · rw [(rename_preserves_fm_body settings vault _ item.content).1]
        show (valAsString (fmGet (updateTaskFileFm settings clock (file.fm.getD [])
          item maps) "todoist_last_imported_signature")).getD "" = _
        rw [updateTaskFileFm_imported_sig]
        rfl
      · rw [(rename_preserves_fm_body settings vault _ item.content).2]
        show needsDescriptionBackfill
          (if needsDescriptionBackfill file.body item then backfillBody file.body item
           else file.body) item = false
        by_cases hd : strTruthy (item.description.map jsTrim) = true
        · by_cases hbf : needsDescriptionBackfill file.body item = true
          · simp only [hbf, if_true]
            simp [needsDescriptionBackfill, hasBody_backfillBody file.body item hd]
          · have hbody : hasBodyContent file.body = true := by
              rcases Bool.eq_false_or_eq_true (hasBodyContent file.body) with hfb | hfb
              · exact hfb
              · exact absurd (by simp [needsDescriptionBackfill, hfb, hd]) hbf
            simp only [Bool.not_eq_true] at hbf
            simp [hbf, needsDescriptionBackfill, hbody]
        · simp only [Bool.not_eq_true] at hd
          simp [needsDescriptionBackfill, hd]
  · intro settings clock clock' vault vault' item maps
    simp only [createTaskFile]
    apply updateTaskFile_shortCircuit
    · show (valAsString (fmGet (buildNewFileFm item maps settings clock)
        "todoist_last_imported_signature")).getD "" = _
      rw [buildNewFileFm_imported_sig]
      rfl
    · show needsDescriptionBackfill ((item.description.map jsTrim).getD "") item = false
      rcases hd : item.description with _ | d
      · simp [needsDescriptionBackfill, hd, strTruthy]
      · by_cases hne : jsTrim d = ""
        · simp [needsDescriptionBackfill, hd, strTruthy, hne]
        · obtain ⟨c, hc, hw⟩ := exists_nonws_of_jsTrim_ne d hne
          have hkeep : jsTrim (jsTrim d) ≠ "" :=
            jsTrim_ne_empty_of_nonws (jsTrim d) c hc hw
          simp [needsDescriptionBackfill, hd, hasBodyContent, hkeep]
  · intro settings clock vault file item maps hsig hbody hdesc
    have hbf : needsDescriptionBackfill file.body item = true := by
      simp [needsDescriptionBackfill, hbody, hdesc]
    have hcond : ¬((match file.fm with
        | some fm => (valAsString (fmGet fm "todoist_last_imported_signature")).getD ""
        | none => "") = buildRemoteImportSignature item maps
      ∧ ¬ needsDescriptionBackfill file.body item = true) := by
      intro hcontra
      exact hcontra.2 hbf
    constructor
    · unfold updateTaskFile
      rw [if_neg hcond]
    · unfold updateTaskFile
      rw [if_neg hcond]
      simp only [hbf, if_true]
      omega

set_option maxRecDepth 100000 in
/-- Witness for C5's backfill-exception part at a concrete note whose
signature matches but whose body is empty while the remote task has a
description. -/
theorem upsert_second_run_is_noop_witness :
    ((match backfillSampleFile.fm with
      | some fm => (valAsString (fmGet fm "todoist_last_imported_signature")).getD ""
      | none => "") = buildRemoteImportSignature backfillSampleItem backfillSampleMaps
      ∧ hasBodyContent backfillSampleFile.body = false
      ∧ strTruthy (backfillSampleItem.description.map jsTrim) = true)
    ∧ ((updateTaskFile sampleSettings sampleClock [] backfillSampleFile
          backfillSampleItem backfillSampleMaps).updated = 1
      ∧ 2 ≤ (updateTaskFile sampleSettings sampleClock [] backfillSampleFile
          backfillSampleItem backfillSampleMaps).writes) :=
  ⟨⟨by decide, by decide, by decide⟩,
   upsert_second_run_is_noop.2.2 sampleSettings sampleClock [] backfillSampleFile
     backfillSampleItem backfillSampleMaps (by decide) (by decide) (by decide)⟩

/-- A successful map lookup comes from a pair of the list. -/
theorem jsMapGet_mem {α : Type} (l : List (String × α)) (k : String) (v : α)
    (h : jsMapGet l k = some v) : (k, v) ∈ l := by
  obtain ⟨q, hfind, hq2⟩ := Option.map_eq_some'.mp h
  have hqmem : q ∈ l := List.mem_reverse.mp (List.mem_of_find?_eq_some hfind)
  have hqk : q.1 = k := by simpa using List.find?_some hfind
  have hq : q = (k, v) := by
    obtain ⟨q1, q2⟩ := q
    simp only at hqk hq2
    rw [hqk, hq2]
  rwa [hq] at hqmem

/-- In the item map, every key is its value's id. -/
theorem itemMap_key_eq_id (items : List TodoistItem) (q : String × TodoistItem)
    (hq : q ∈ items.map (fun item => (item.id, item))) : q.1 = q.2.id := by
  obtain ⟨i, _, rfl⟩ := List.mem_map.mp hq
  rfl

/-- With distinct ids, every item of the snapshot looks itself up. -/
theorem jsMapGet_itemMap_self (items : List TodoistItem)
    (hNodup : (items.map TodoistItem.id).Nodup) (i : TodoistItem) (hi : i ∈ items) :
    jsMapGet (items.map (fun item => (item.id, item))) i.id = some i := by
  unfold jsMapGet
  rw [← List.map_reverse, List.find?_map]
  have hver : ∃ x ∈ items.reverse, (fun j => decide (j.id = i.id)) x = true :=
    ⟨i, List.mem_reverse.mpr hi, by simp⟩
  obtain ⟨j, hfind⟩ := Option.isSome_iff_exists.mp (List.find?_isSome.mpr hver)
  have hjid : j.id = i.id := by simpa using List.find?_some hfind
  have hjmem : j ∈ items := List.mem_reverse.mp (List.mem_of_find?_eq_some hfind)
  have hji : j = i := List.inj_on_of_nodup_map hNodup hjmem hi hjid
  have hcomp : ((fun (p : String × TodoistItem) => decide (p.1 = i.id))
        ∘ fun (item : TodoistItem) => (item.id, item))
      = (fun j => decide (j.id = i.id)) := rfl
  rw [hcomp, hfind]
  simp [hji]

/-- With no empty ids, the empty string looks up nothing. -/
theorem jsMapGet_itemMap_empty (items : List TodoistItem)
    (hId : ∀ i ∈ items, i.id ≠ "") :
    jsMapGet (items.map (fun item => (item.id, item))) "" = none := by
  cases h : jsMapGet (items.map (fun item => (item.id, item))) "" with
  | none => rfl
  | some v =>
    have := jsMapGet_mem _ _ _ h
    obtain ⟨i, hi, heq⟩ := List.mem_map.mp this
    have : i.id = "" := congrArg Prod.fst heq
    exact absurd this (hId i hi)

/-- The pair just set is in the map. -/
theorem jsMapSet_mem_self {α : Type} (sel : List (String × α)) (k : String) (v : α) :
    (k, v) ∈ jsMapSet sel k v := by
  unfold jsMapSet
  split
  · rename_i hany
    obtain ⟨q, hq, hqk⟩ := List.any_eq_true.mp hany
    refine List.mem_map.mpr ⟨q, hq, ?_⟩
    simp only [decide_eq_true_eq] at hqk
    simp [hqk]
  · simp

/-- Pairs under other keys survive a set. -/
theorem jsMapSet_mem_other {α : Type} (sel : List (String × α)) (q : String × α)
    (k : String) (v : α) (hq : q ∈ sel) (hk : q.1 ≠ k) : q ∈ jsMapSet sel k v := by
  unfold jsMapSet
  split
  · exact List.mem_map.mpr ⟨q, hq, by simp [hk]⟩
  · exact List.mem_append_left _ hq

/-- Every pair of a set map is the new pair or an original one. -/
theorem jsMapSet_mem_src {α : Type} (sel : List (String × α)) (k : String) (v : α)
    (q : String × α) (h : q ∈ jsMapSet sel k v) : q = (k, v) ∨ q ∈ sel := by
  unfold jsMapSet at h
  split at h
  · obtain ⟨q', hq', hmap⟩ := List.mem_map.mp h
    by_cases hk : q'.1 = k
    · left
      rw [if_pos hk] at hmap
      exact hmap.symm
    · right
      rw [if_neg hk] at hmap
      rwa [← hmap]
  · rcases List.mem_append.mp h with hin | hin
    · exact Or.inr hin
    · left
      simpa using hin

/-- Setting an agreeing pair preserves agreement. -/
theorem selAgrees_set (P sel : List (String × TodoistItem)) (k : String)
    (v : TodoistItem) (hag : selAgrees P sel) (hv : jsMapGet P k = some v) :
    selAgrees P (jsMapSet sel k v) := by
  intro q hq
  rcases jsMapSet_mem_src sel k v q hq with rfl | hq'
  · exact hv
  · exact hag q hq'

/-- Setting an agreeing pair keeps every stored value stored. -/
theorem vals_jsMapSet_mem (P sel : List (String × TodoistItem)) (k : String)
    (v : TodoistItem) (hag : selAgrees P sel) (hv : jsMapGet P k = some v)
    (a : TodoistItem) (ha : a ∈ sel.map Prod.snd) :
    a ∈ (jsMapSet sel k v).map Prod.snd := by
  obtain ⟨q, hq, rfl⟩ := List.mem_map.mp ha
  by_cases hk : q.1 = k
  · have hlook := hag q hq
    rw [hk, hv] at hlook
    have hqv : v = q.2 := by injection hlook
    rw [← hqv]
    exact List.mem_map.mpr ⟨(k, v), jsMapSet_mem_self sel k v, rfl⟩
  · exact List.mem_map.mpr ⟨q, jsMapSet_mem_other sel q k v hq hk, rfl⟩

/-- Unfolding: the walk stops at a null pointer. -/
theorem ancestorWalk_none (P : List (String × TodoistItem)) (seen : List String)
    (sel : List (String × TodoistItem)) : ancestorWalk P none seen sel = sel := by
  unfold ancestorWalk
  rfl

/-- Unfolding: the walk stops at an empty-string pointer. -/
theorem ancestorWalk_empty (P : List (String × TodoistItem)) (seen : List String)
    (sel : List (String × TodoistItem)) : ancestorWalk P (some "") seen sel = sel := by
  unfold ancestorWalk
  simp

/-- Unfolding: the walk stops at an already seen id. -/
theorem ancestorWalk_seen (P : List (String × TodoistItem)) (pid : String)
    (seen : List String) (sel : List (String × TodoistItem)) (hemp : ¬ pid = "")
    (hseen : pid ∈ seen) : ancestorWalk P (some pid) seen sel = sel := by
  unfold ancestorWalk
  rw [if_neg hemp, dif_pos hseen]

/-- Unfolding: the walk stops when the pointer resolves to nothing. -/
theorem ancestorWalk_noLookup (P : List (String × TodoistItem)) (pid : String)
    (seen : List String) (sel : List (String × TodoistItem)) (hemp : ¬ pid = "")
    (hseen : pid ∉ seen) (hlook : jsMapGet P pid = none) :
    ancestorWalk P (some pid) seen sel = sel := by
  unfold ancestorWalk
  rw [if_neg hemp, dif_neg hseen]
  split
  · rfl
  · rename_i parent heq
    rw [hlook] at heq
    cases heq

/-- Unfolding: one step of the walk. -/
theorem ancestorWalk_step (P : List (String × TodoistItem)) (pid : String)
    (seen : List String) (sel : List (String × TodoistItem))
    (parent : TodoistItem) (hemp : ¬ pid = "") (hseen : pid ∉ seen)
    (hlook : jsMapGet P pid = some parent) :
    ancestorWalk P (some pid) seen sel
      = ancestorWalk P parent.parent_id (pid :: seen)
          (jsMapSet sel parent.id parent) := by
  conv_lhs => unfold ancestorWalk
  rw [if_neg hemp, dif_neg hseen]
  split
  · rename_i heq
    rw [hlook] at heq
    cases heq
  · rename_i p' heq
    rw [hlook] at heq
    obtain rfl : parent = p' := by injection heq
    rfl

/-- Every reachability witness starts at a resolvable id. -/
theorem reachesAncestor_lookup (P : List (String × TodoistItem)) (p : Option String)
    (a : TodoistItem) (h : ReachesAncestor P p a) :
    ∃ pid, p = some pid ∧ ∃ it, jsMapGet P pid = some it := by
  cases h with
  | head pid a hlook => exact ⟨pid, rfl, a, hlook⟩
  | tail pid b a hlook hsub => exact ⟨pid, rfl, b, hlook⟩

/-- From a successor-closed seen set whose resolvable ids are all stored,
every ancestor reachable from a seen id is stored. -/
theorem reach_from_seen (P sel : List (String × TodoistItem)) (seen : List String)
    (hclosed : ∀ k ∈ seen, ∀ it, jsMapGet P k = some it →
      it ∈ sel.map Prod.snd
        ∧ ∀ q, it.parent_id = some q → (q ∈ seen ∨ jsMapGet P q = none)) :
    ∀ (p : Option String) (a : TodoistItem), ReachesAncestor P p a →
      ∀ k, p = some k → k ∈ seen → a ∈ sel.map Prod.snd := by
  intro p a hreach
  induction hreach with
  | head pid a hlook =>
    intro k heq hin
    obtain rfl : pid = k := by injection heq
    exact (hclosed pid hin a hlook).1
  | tail pid b a hlook hsub ih =>
    intro k heq hin
    obtain rfl : pid = k := by injection heq
    obtain ⟨q, hq, it, hlookq⟩ := reachesAncestor_lookup P b.parent_id a hsub
    rcases (hclosed pid hin b hlook).2 q hq with hqin | hqnone
    · exact ih q hq hqin
    · rw [hqnone] at hlookq
      cases hlookq

/-- The ancestor walk preserves agreement and never loses a stored value. -/
theorem ancestorWalk_preserves (P : List (String × TodoistItem))
    (hP : ∀ q ∈ P, q.1 = q.2.id)
    (p : Option String) (seen : List String) (sel : List (String × TodoistItem)) :
    selAgrees P sel →
    selAgrees P (ancestorWalk P p seen sel)
    ∧ ∀ a ∈ sel.map Prod.snd, a ∈ (ancestorWalk P p seen sel).map Prod.snd := by
  induction p, seen, sel using ancestorWalk.induct P with
  | case1 seen sel =>
    intro hag
    rw [ancestorWalk_none]
    exact ⟨hag, fun a ha => ha⟩
  | case2 seen sel =>
    intro hag
    rw [ancestorWalk_empty]
    exact ⟨hag, fun a ha => ha⟩
  | case3 pid seen sel hemp hseen =>
    intro hag
    rw [ancestorWalk_seen P pid seen sel hemp hseen]
    exact ⟨hag, fun a ha => ha⟩
  | case4 pid seen sel hemp hseen hlook =>
    intro hag
    rw [ancestorWalk_noLookup P pid seen sel hemp hseen hlook]
    exact ⟨hag, fun a ha => ha⟩
  | case5 pid seen sel hemp hseen parent hlook ih =>
    intro hag
    have hpid : pid = parent.id := hP (pid, parent) (jsMapGet_mem P pid parent hlook)
    have hv : jsMapGet P parent.id = some parent := hpid ▸ hlook
    have hag2 : selAgrees P (jsMapSet sel parent.id parent) :=
      selAgrees_set P sel parent.id parent hag hv
    rw [ancestorWalk_step P pid seen sel parent hemp hseen hlook]
    refine ⟨(ih hag2).1, fun a ha => (ih hag2).2 a ?_⟩
    exact vals_jsMapSet_mem P sel parent.id parent hag hv a ha

/-- The ancestor walk stores every ancestor reachable from its current
pointer, and everything reachable from the already seen ids. -/
theorem ancestorWalk_covers (P : List (String × TodoistItem))
    (hP : ∀ q ∈ P, q.1 = q.2.id) (hEmpty : jsMapGet P "" = none)
    (p : Option String) (seen : List String) (sel : List (String × TodoistItem)) :
    selAgrees P sel →
    (∀ k ∈ seen, ∀ it, jsMapGet P k = some it →
      it ∈ sel.map Prod.snd
        ∧ (it.parent_id = p ∨ ∃ q, it.parent_id = some q ∧ q ∈ seen)) →
    ∀ a, (ReachesAncestor P p a ∨ ∃ k ∈ seen, ReachesAncestor P (some k) a) →
      a ∈ (ancestorWalk P p seen sel).map Prod.snd := by
  induction p, seen, sel using ancestorWalk.induct P with
  | case1 seen sel =>
    intro hag hseenInv a hreach
    have hclosed : ∀ k ∈ seen, ∀ it, jsMapGet P k = some it →
        it ∈ sel.map Prod.snd
          ∧ ∀ q, it.parent_id = some q → (q ∈ seen ∨ jsMapGet P q = none) := by
      intro k hk it hit
      refine ⟨(hseenInv k hk it hit).1, fun q hq => ?_⟩
      rcases (hseenInv k hk it hit).2 with hnone | ⟨q2, hq2, hq2in⟩
      · rw [hnone] at hq
        cases hq
      · rw [hq2] at hq
        obtain rfl : q2 = q := by injection hq
        exact Or.inl hq2in
    rw [ancestorWalk_none]
    rcases hreach with hr | ⟨k, hk, hr⟩
    · cases hr
    · exact reach_from_seen P sel seen hclosed _ a hr k rfl hk
  | case2 seen sel =>
    intro hag hseenInv a hreach
    have hclosed : ∀ k ∈ seen, ∀ it, jsMapGet P k = some it →
        it ∈ sel.map Prod.snd
          ∧ ∀ q, it.parent_id = some q → (q ∈ seen ∨ jsMapGet P q = none) := by
      intro k hk it hit
      refine ⟨(hseenInv k hk it hit).1, fun q hq => ?_⟩
      rcases (hseenInv k hk it hit).2 with hp | ⟨q2, hq2, hq2in⟩
      · rw [hp] at hq
        obtain rfl : "" = q := by injection hq
        exact Or.inr hEmpty
      · rw [hq2] at hq
        obtain rfl : q2 = q := by injection hq
        exact Or.inl hq2in
    rw [ancestorWalk_empty]
    rcases hreach with hr | ⟨k, hk, hr⟩
    · obtain ⟨pid, hpid, it, hit⟩ := reachesAncestor_lookup P _ a hr
      obtain rfl : pid = "" := by
        injection hpid.symm
      rw [hEmpty] at hit
      cases hit
    · exact reach_from_seen P sel seen hclosed _ a hr k rfl hk
  | case3 pid seen sel hemp hseen =>
    intro hag hseenInv a hreach
    have hclosed : ∀ k ∈ seen, ∀ it, jsMapGet P k = some it →
        it ∈ sel.map Prod.snd
          ∧ ∀ q, it.parent_id = some q → (q ∈ seen ∨ jsMapGet P q = none) := by
      intro k hk it hit
      refine ⟨(hseenInv k hk it hit).1, fun q hq => ?_⟩
      rcases (hseenInv k hk it hit).2 with hp | ⟨q2, hq2, hq2in⟩
      · rw [hp] at hq
        obtain rfl : pid = q := by injection hq
        exact Or.inl hseen
      · rw [hq2] at hq
        obtain rfl : q2 = q := by injection hq
        exact Or.inl hq2in
    rw [ancestorWalk_seen P pid seen sel hemp hseen]
    rcases hreach with hr | ⟨k, hk, hr⟩
    · exact reach_from_seen P sel seen hclosed _ a hr pid rfl hseen
    · exact reach_from_seen P sel seen hclosed _ a hr k rfl hk
  | case4 pid seen sel hemp hseen hlook =>
    intro hag hseenInv a hreach
    have hclosed : ∀ k ∈ seen, ∀ it, jsMapGet P k = some it →
        it ∈ sel.map Prod.snd
          ∧ ∀ q, it.parent_id = some q → (q ∈ seen ∨ jsMapGet P q = none) := by
      intro k hk it hit
      refine ⟨(hseenInv k hk it hit).1, fun q hq => ?_⟩
      rcases (hseenInv k hk it hit).2 with hp | ⟨q2, hq2, hq2in⟩
      · rw [hp] at hq
        obtain rfl : pid = q := by injection hq
        exact Or.inr hlook
      · rw [hq2] at hq
        obtain rfl : q2 = q := by injection hq
        exact Or.inl hq2in
    rw [ancestorWalk_noLookup P pid seen sel hemp hseen hlook]
    rcases hreach with hr | ⟨k, hk, hr⟩
    · obtain ⟨pid2, hpid2, it, hit⟩ := reachesAncestor_lookup P _ a hr
      obtain rfl : pid = pid2 := by injection hpid2
      rw [hlook] at hit
      cases hit
    · exact reach_from_seen P sel seen hclosed _ a hr k rfl hk
  | case5 pid seen sel hemp hseen parent hlook ih =>
    intro hag hseenInv a hreach
    have hpid : pid = parent.id := hP (pid, parent) (jsMapGet_mem P pid parent hlook)
    have hv : jsMapGet P parent.id = some parent := hpid ▸ hlook
    have hag2 : selAgrees P (jsMapSet sel parent.id parent) :=
      selAgrees_set P sel parent.id parent hag hv
    have hparentIn : parent ∈ (jsMapSet sel parent.id parent).map Prod.snd :=
      List.mem_map.mpr ⟨(parent.id, parent), jsMapSet_mem_self sel parent.id parent, rfl⟩
    have hseenInv2 : ∀ k ∈ pid :: seen, ∀ it, jsMapGet P k = some it →
        it ∈ (jsMapSet sel parent.id parent).map Prod.snd
          ∧ (it.parent_id = parent.parent_id
            ∨ ∃ q, it.parent_id = some q ∧ q ∈ pid :: seen) := by
      intro k hk it hit
      rcases List.mem_cons.mp hk with rfl | hk2
      · obtain rfl : parent = it := by
          rw [hlook] at hit
          injection hit
        exact ⟨hparentIn, Or.inl rfl⟩
      · have hold := hseenInv k hk2 it hit
        refine ⟨vals_jsMapSet_mem P sel parent.id parent hag hv it hold.1, ?_⟩
        rcases hold.2 with hp | ⟨q2, hq2, hq2in⟩
        · exact Or.inr ⟨pid, hp, List.mem_cons_self pid seen⟩
        · exact Or.inr ⟨q2, hq2, List.mem_cons_of_mem pid hq2in⟩
    rw [ancestorWalk_step P pid seen sel parent hemp hseen hlook]
    apply ih hag2 hseenInv2
    rcases hreach with hr | ⟨k, hk, hr⟩
    · cases hr with
      | head =>
        rename_i hlook2
        rw [hlook] at hlook2
        obtain rfl : parent = a := by injection hlook2
        exact Or.inr ⟨pid, List.mem_cons_self pid seen,
          ReachesAncestor.head pid parent hlook⟩
      | tail =>
        rename_i b hlook2 hsub
        rw [hlook] at hlook2
        obtain rfl : parent = b := by injection hlook2
        exact Or.inl hsub
    · exact Or.inr ⟨k, List.mem_cons_of_mem pid hk, hr⟩

/-- Folding self-insertions over agreeing items keeps agreement and stores
every inserted item. -/
theorem foldl_insert_items (P : List (String × TodoistItem)) :
    ∀ (items : List TodoistItem), (∀ i ∈ items, jsMapGet P i.id = some i) →
    ∀ sel, selAgrees P sel →
    selAgrees P (items.foldl (fun s i => jsMapSet s i.id i) sel)
    ∧ ∀ a, (a ∈ items ∨ a ∈ sel.map Prod.snd) →
        a ∈ (items.foldl (fun s i => jsMapSet s i.id i) sel).map Prod.snd := by
  intro items
  induction items with
  | nil =>
    intro _ sel hag
    refine ⟨hag, fun a ha => ?_⟩
    rcases ha with ha | ha
    · cases ha
    · exact ha
  | cons i rest ih =>
    intro hAll sel hag
    have hvi : jsMapGet P i.id = some i := hAll i (List.mem_cons_self i rest)
    have hAll2 : ∀ j ∈ rest, jsMapGet P j.id = some j :=
      fun j hj => hAll j (List.mem_cons_of_mem i hj)
    have hag2 : selAgrees P (jsMapSet sel i.id i) := selAgrees_set P sel i.id i hag hvi
    obtain ⟨ihag, ihmem⟩ := ih hAll2 (jsMapSet sel i.id i) hag2
    refine ⟨ihag, fun a ha => ?_⟩
    rcases ha with ha | ha
    · rcases List.mem_cons.mp ha with rfl | ha2
      · exact ihmem a (Or.inr (List.mem_map.mpr
          ⟨(a.id, a), jsMapSet_mem_self sel a.id a, rfl⟩))
      · exact ihmem a (Or.inl ha2)
    · exact ihmem a (Or.inr (vals_jsMapSet_mem P sel i.id i hag hvi a ha))

/-- Folding the ancestor walk over the base items keeps agreement, keeps
every stored value, and stores every ancestor of every base item. -/
theorem foldl_walk_items (P : List (String × TodoistItem))
    (hP : ∀ q ∈ P, q.1 = q.2.id) (hEmpty : jsMapGet P "" = none) :
    ∀ (baseItems : List TodoistItem) (sel : List (String × TodoistItem)),
    selAgrees P sel →
    selAgrees P (baseItems.foldl (fun s i => ancestorWalk P i.parent_id [] s) sel)
    ∧ (∀ a ∈ sel.map Prod.snd,
        a ∈ (baseItems.foldl (fun s i => ancestorWalk P i.parent_id [] s) sel).map
          Prod.snd)
    ∧ ∀ b ∈ baseItems, ∀ a, ReachesAncestor P b.parent_id a →
        a ∈ (baseItems.foldl (fun s i => ancestorWalk P i.parent_id [] s) sel).map
          Prod.snd := by
  intro baseItems
  induction baseItems with
  | nil =>
    intro sel hag
    refine ⟨hag, fun a ha => ha, fun b hb => ?_⟩
    cases hb
  | cons b rest ih =>
    intro sel hag
    have hpres := ancestorWalk_preserves P hP b.parent_id [] sel hag
    obtain ⟨ihag, ihmem, ihcov⟩ := ih (ancestorWalk P b.parent_id [] sel) hpres.1
    refine ⟨ihag, fun a ha => ihmem a (hpres.2 a ha), ?_⟩
    intro b2 hb2 a hr
    rcases List.mem_cons.mp hb2 with rfl | hb3
    · have hcov := ancestorWalk_covers P hP hEmpty b2.parent_id [] sel hag
        (by intro k hk; cases hk) a (Or.inl hr)
      exact ihmem a hcov
    · exact ihcov b2 hb3 a hr

/-- C7: `includeAncestorTasks` returns a set containing every importable
(base) item and every ancestor reachable from a base item by following
`parent_id` pointers through the snapshot's item list — including
ancestors that themselves fail the import filter, since reachability never
consults the filter; the walk itself is a terminating function (defined by
well-founded recursion on the unseen keys, so parent-pointer cycles cannot
make it diverge). Hypotheses: snapshot ids are distinct and non-empty, and
the base items come from the snapshot, as in `runImportSync`. -/
theorem includeAncestorTasks_contains_base_and_ancestors
    (baseItems allItems : List TodoistItem)
    (hNodup : (allItems.map TodoistItem.id).Nodup)
    (hSub : ∀ b ∈ baseItems, b ∈ allItems)
    (hId : ∀ i ∈ allItems, i.id ≠ "") :
    (∀ b ∈ baseItems, b ∈ includeAncestorTasks baseItems allItems)
    ∧ ∀ b ∈ baseItems, ∀ a,
        ReachesAncestor (allItems.map (fun item => (item.id, item))) b.parent_id a →
        a ∈ includeAncestorTasks baseItems allItems := by
  have hP : ∀ q ∈ allItems.map (fun item => (item.id, item)), q.1 = q.2.id :=
    itemMap_key_eq_id allItems
  have hEmpty : jsMapGet (allItems.map (fun item => (item.id, item))) "" = none :=
    jsMapGet_itemMap_empty allItems hId
  have hAll : ∀ b ∈ baseItems,
      jsMapGet (allItems.map (fun item => (item.id, item))) b.id = some b :=
    fun b hb => jsMapGet_itemMap_self allItems hNodup b (hSub b hb)
  have hagNil : selAgrees (allItems.map (fun item => (item.id, item))) [] := by
    intro q hq
    cases hq
  obtain ⟨hag0, hmem0⟩ :=
    foldl_insert_items (allItems.map (fun item => (item.id, item))) baseItems hAll [] hagNil
  obtain ⟨hagF, hmemF, hcovF⟩ :=
    foldl_walk_items (allItems.map (fun item => (item.id, item))) hP hEmpty baseItems _ hag0
  constructor
  · intro b hb
    simpa [includeAncestorTasks] using hmemF b (hmem0 b (Or.inl hb))
  · intro b hb a hr
    simpa [includeAncestorTasks] using hcovF b hb a hr

/-- Witness for C7 at the spec's example, with C's parent pointer looping
back to B: A, B and C are all materialized and the walk terminates. -/
theorem includeAncestorTasks_contains_base_and_ancestors_witness :
    ((wSnapshot.map TodoistItem.id).Nodup
      ∧ (∀ b ∈ [wItemA], b ∈ wSnapshot)
      ∧ (∀ i ∈ wSnapshot, i.id ≠ ""))
    ∧ wItemA ∈ includeAncestorTasks [wItemA] wSnapshot
    ∧ wItemB ∈ includeAncestorTasks [wItemA] wSnapshot
    ∧ wItemC ∈ includeAncestorTasks [wItemA] wSnapshot := by
  have h := includeAncestorTasks_contains_base_and_ancestors [wItemA] wSnapshot
    (by decide) (by decide) (by decide)
  refine ⟨⟨by decide, by decide, by decide⟩, ?_, ?_, ?_⟩
  · exact h.1 wItemA (by decide)
  · exact h.2 wItemA (by decide) wItemB (ReachesAncestor.head "b" wItemB (by decide))
  · exact h.2 wItemA (by decide) wItemC
      (ReachesAncestor.tail "b" wItemB wItemC (by decide)
        (ReachesAncestor.head "c" wItemC (by decide)))

/-- C2 (amended): `findMissingEntries`, fed the map `runImportSync` builds
from the fresh snapshot, classifies as missing exactly the previously
synced entries whose remote id matches no item of the snapshot — presence
decides alone; the `is_deleted` flag plays no part. -/
theorem findMissingEntries_absent_iff (existing : List SyncedTaskEntry)
    (items : List TodoistItem) (e : SyncedTaskEntry) :
    e ∈ findMissingEntries existing (activeItemById items)
      ↔ e ∈ existing ∧ ∀ it ∈ items, it.id ≠ e.todoistId := by
  simp [findMissingEntries, activeItemById, jsMapHas, List.mem_filter, List.any_map,
    Function.comp, List.any_eq_true]

/-- C2 counterexample: a synced note whose remote item appears in the
fresh snapshot flagged `is_deleted` is not classified as missing. -/
theorem deleted_item_not_flagged_missing :
    deletedRemoteItem.is_deleted = some true
      ∧ deletedRemoteEntry.todoistId = deletedRemoteItem.id
      ∧ deletedRemoteEntry ∉
          findMissingEntries [deletedRemoteEntry] (activeItemById [deletedRemoteItem]) := by
  decide

/-- C3: at the failing input — a pending update whose front matter carries
`todoist_due: 2025-01-15` — the pushed command sets `clearDue` and sends
`due: null`, because the loop reads the undeclared `pending.dueRaw`
(always `undefined`) instead of the pending record's due fields; the claim's
"clearDue iff both due fields empty" is violated. -/
theorem pending_update_with_due_date_still_clears_due :
    rentPendingUpdate.dueDate = some "2025-01-15"
      ∧ (buildUpdateTaskInput rentPendingUpdate [] []).clearDue = some true
      ∧ (updateTaskCommands (buildUpdateTaskInput rentPendingUpdate [] [])).1.due
          = DueArg.cleared := by
  decide

/-- C4: at the failing input — a recurring task marked done locally — the
update loop builds an `updateTask` input without the `isRecurring` flag, so
the recurring-completion guard never fires and the `item_update` command of
the batch carries a `due` key (`due: null`) alongside the `item_close`
completion toggle. -/
theorem recurring_completion_batch_carries_due_key :
    recurringPendingUpdate.isRecurring = true
      ∧ recurringPendingUpdate.isDone = true
      ∧ (buildUpdateTaskInput recurringPendingUpdate [] []).isRecurring = none
      ∧ (updateTaskCommands (buildUpdateTaskInput recurringPendingUpdate [] [])).1.due
          ≠ DueArg.omitted
      ∧ (updateTaskCommands (buildUpdateTaskInput recurringPendingUpdate [] [])).2.1
          = ToggleType.close := by
  decide

/-- Had the caller forwarded the recurring flag, `updateTask` itself would
omit the `due` key from the `item_update` arguments of a completion (the
completion toggle carries only the id by construction). -/
theorem updateTask_recurring_completion_omits_due (input : TodoistTaskUpdateInput)
    (h1 : input.isDone = true) (h2 : input.isRecurring = some true) :
    (updateTaskCommands input).1.due = DueArg.omitted := by
  simp [updateTaskCommands, h1, h2, optBoolTruthy]

/-- C1: at the failing input — the create and update loops of
`runImportSync` — the bookkeeping sets `todoist_sync_status` to `synced`
and records the assigned id, but stores `undefined` in
`todoist_last_synced_signature` (never any string, in particular not the
pushed state's signature), because both call sites omit the signature
argument their repository methods declare. -/
theorem mark_synced_stores_no_signature :
    fmGet (createLoopBookkeeping sampleSettings sampleClock queuedCreateNoteFm "900")
        "todoist_sync_status" = Val.str "synced"
      ∧ fmGet (createLoopBookkeeping sampleSettings sampleClock queuedCreateNoteFm "900")
          "todoist_id" = Val.str "900"
      ∧ (∀ s : String,
          fmGet (createLoopBookkeeping sampleSettings sampleClock queuedCreateNoteFm "900")
            "todoist_last_synced_signature" ≠ Val.str s)
      ∧ (∀ s : String,
          fmGet (updateLoopBookkeeping sampleSettings sampleClock queuedCreateNoteFm)
            "todoist_last_synced_signature" ≠ Val.str s) := by
  have h1 : fmGet (createLoopBookkeeping sampleSettings sampleClock queuedCreateNoteFm "900")
      "todoist_last_synced_signature" = Val.undef := by decide
  have h2 : fmGet (updateLoopBookkeeping sampleSettings sampleClock queuedCreateNoteFm)
      "todoist_last_synced_signature" = Val.undef := by decide
  refine ⟨by decide, by decide, fun s => ?_, fun s => ?_⟩
  · rw [h1]; simp
  · rw [h2]; simp

/-! ## Linked-checklist mirror lemmas (claim C9) -/

/-- `takeWhile` over a block of accepted characters stops exactly at the
first rejected one. -/
theorem takeWhile_all_stop (p : Char → Bool) (l1 : List Char) (x : Char)
    (h1 : ∀ c ∈ l1, p c = true) (hx : p x = false) (rest : List Char) :
    (l1 ++ x :: rest).takeWhile p = l1 := by
  induction l1 with
  | nil => simp [List.takeWhile_cons, hx]
  | cons a t ih =>
    have ha : p a = true := h1 a (List.mem_cons_self a t)
    simp [List.takeWhile_cons, ha,
      ih (fun c hc => h1 c (List.mem_cons_of_mem a hc))]

/-- `dropWhile` over a block of accepted characters resumes exactly at the
first rejected one. -/
theorem dropWhile_all_stop (p : Char → Bool) (l1 : List Char) (x : Char)
    (h1 : ∀ c ∈ l1, p c = true) (hx : p x = false) (rest : List Char) :
    (l1 ++ x :: rest).dropWhile p = x :: rest := by
  induction l1 with
  | nil => simp [List.dropWhile_cons, hx]
  | cons a t ih =>
    have ha : p a = true := h1 a (List.mem_cons_self a t)
    simp [List.dropWhile_cons, ha,
      ih (fun c hc => h1 c (List.mem_cons_of_mem a hc))]

/-- `String.mk` distributes over append. -/
theorem strMkAppend (a b : List Char) :
    String.mk a ++ String.mk b = String.mk (a ++ b) := rfl

/-- `String.mk` of a string's characters is the string. -/
theorem strMkData (s : String) : String.mk s.data = s := rfl

/-- `joinLines` on at least two lines peels the first line and a newline. -/
theorem joinLines_cons₂ (a b : String) (t : List String) :
    joinLines (a :: b :: t) = a ++ "\n" ++ joinLines (b :: t) := rfl

/-- The split loop never returns an empty list. -/
theorem splitNlAux_ne_nil (cs acc : List Char) : splitNlAux cs acc ≠ [] := by
  induction cs generalizing acc with
  | nil => simp [splitNlAux]
  | cons c cs ih =>
    by_cases hc : c = '\n' <;> simp [splitNlAux, hc, ih]

/-- Rejoining the split loop's output restores the remaining text after the
accumulated prefix. -/
theorem joinLines_splitNlAux (cs : List Char) :
    ∀ acc, joinLines (splitNlAux cs acc) = String.mk (acc.reverse ++ cs) := by
  induction cs with
  | nil => intro acc; simp [splitNlAux, joinLines]
  | cons c cs ih =>
    intro acc
    by_cases hc : c = '\n'
    · subst hc
      obtain ⟨b, t, hbt⟩ : ∃ b t, splitNlAux cs ([] : List Char) = b :: t := by
        cases hsp : splitNlAux cs [] with
        | nil => exact absurd hsp (splitNlAux_ne_nil cs [])
        | cons b t => exact ⟨b, t, rfl⟩
      rw [splitNlAux]
      simp only [if_pos rfl, if_true]
      rw [hbt, joinLines_cons₂, ← hbt, ih []]
      simp only [List.reverse_nil, List.nil_append]
      rw [show ("\n" : String) = String.mk ['\n'] from rfl, strMkAppend,
        strMkAppend]
      simp [List.append_assoc]
    · rw [splitNlAux]
      simp only [if_neg hc]
      rw [ih (c :: acc)]
      simp [List.append_assoc]

/-- `split('\n')` then `join('\n')` is the identity. -/
theorem joinLines_jsSplitNl (s : String) : joinLines (jsSplitNl s) = s := by
  have h := joinLines_splitNlAux s.data []
  simpa [jsSplitNl, strMkData] using h

/-- Summing per-element 0/1 indicators counts the satisfying elements. -/
theorem sum_map_ite_one (p : String → Bool) (l : List String) :
    (l.map fun x => if p x then 1 else 0).sum = l.countP p := by
  induction l with
  | nil => simp
  | cons a t ih => by_cases hp : p a <;> simp [List.countP_cons, hp, ih] <;> omega


/-- Every successful regex match satisfies the shape invariants. -/
theorem parseChecklistLine_wf {line : String} {cl : ChecklistLine}
    (h : parseChecklistLine line = some cl) : ChecklistLineWf cl := by
  simp only [parseChecklistLine] at h
  split at h <;> try exact Option.noConfusion h
  rename_i bullet rest2 heq1
  split at h <;> try exact Option.noConfusion h
  rename_i hbul
  split at h <;> try exact Option.noConfusion h
  rename_i hws2
  split at h <;> try exact Option.noConfusion h
  rename_i m rest4 heq2
  split at h <;> try exact Option.noConfusion h
  rename_i hm
  split at h <;> try exact Option.noConfusion h
  rename_i hws3
  split at h <;> try exact Option.noConfusion h
  rename_i rest6 heq3
  split at h <;> try exact Option.noConfusion h
  rename_i htgt
  split at h <;> try exact Option.noConfusion h
  · rename_i rest8 heq4
    split at h <;> try exact Option.noConfusion h
    rename_i hall
    injection h with h2
    subst h2
    refine ⟨⟨line.data.takeWhile jsSpaceChar, bullet,
        rest2.takeWhile jsSpaceChar, rfl,
        fun c hc => List.mem_takeWhile_imp hc, hbul, hws2,
        fun c hc => List.mem_takeWhile_imp hc⟩,
      hm, htgt, fun c hc => List.mem_takeWhile_imp hc,
      ?_, fun c hc => (List.all_eq_true.mp hall) c hc⟩
    intro al hal
    exact Option.noConfusion hal
  · rename_i rest8 heq4
    split at h <;> try exact Option.noConfusion h
    rename_i halne
    split at h <;> try exact Option.noConfusion h
    rename_i rest10 heq5
    split at h <;> try exact Option.noConfusion h
    rename_i hall
    injection h with h2
    subst h2
    refine ⟨⟨line.data.takeWhile jsSpaceChar, bullet,
        rest2.takeWhile jsSpaceChar, rfl,
        fun c hc => List.mem_takeWhile_imp hc, hbul, hws2,
        fun c hc => List.mem_takeWhile_imp hc⟩,
      hm, htgt, fun c hc => List.mem_takeWhile_imp hc,
      ?_, fun c hc => (List.all_eq_true.mp hall) c hc⟩
    intro al hal
    injection hal with hal2
    subst hal2
    exact ⟨halne, fun c hc => List.mem_takeWhile_imp hc⟩


/-- `String.data` of `String.mk` is the underlying list. -/
theorem strDataMk (l : List Char) : (String.mk l).data = l := rfl

/-- Rebuilding a line from well-formed match components parses back to
those components. -/
theorem parse_rebuild (ws1 ws2 tgt trail : List Char)
    (alo : Option (List Char)) (bullet mc : Char)
    (hws1 : ∀ c ∈ ws1, jsSpaceChar c = true)
    (hbul : bullet = '-' ∨ bullet = '*' ∨ bullet = '+')
    (hws2ne : ws2 ≠ [])
    (hws2 : ∀ c ∈ ws2, jsSpaceChar c = true)
    (hmc : mc = ' ' ∨ mc = 'x' ∨ mc = 'X')
    (htgtne : tgt ≠ [])
    (htgt : ∀ c ∈ tgt, notTargetEnd c = true)
    (halias : ∀ al, alo = some al → al ≠ [] ∧ ∀ c ∈ al, notAliasEnd c = true)
    (htrail : ∀ c ∈ trail, jsSpaceChar c = true) :
    parseChecklistLine (String.mk (ws1 ++ bullet :: ws2 ++ '[' :: mc ::
        ']' :: ' ' :: '[' :: '[' :: tgt ++ aliasSegment alo ++
        ']' :: ']' :: trail))
      = some ⟨String.mk (ws1 ++ bullet :: ws2), mc, String.mk tgt,
          alo.map String.mk, String.mk trail⟩ := by
  have hbfalse : jsSpaceChar bullet = false := by
    rcases hbul with h | h | h <;> subst h <;> decide
  have hlb : jsSpaceChar '[' = false := by decide
  have hsp : jsSpaceChar ' ' = true := by decide
  have hrb : notTargetEnd ']' = false := by decide
  have hpipe : notTargetEnd '|' = false := by decide
  have hrb2 : notAliasEnd ']' = false := by decide
  have hallt : trail.all jsSpaceChar = true := List.all_eq_true.mpr htrail
  cases alo with
  | none =>
    simp [parseChecklistLine, strDataMk, aliasSegment,
      takeWhile_all_stop jsSpaceChar ws1 bullet hws1 hbfalse,
      dropWhile_all_stop jsSpaceChar ws1 bullet hws1 hbfalse,
      takeWhile_all_stop jsSpaceChar ws2 '[' hws2 hlb,
      dropWhile_all_stop jsSpaceChar ws2 '[' hws2 hlb,
      takeWhile_all_stop notTargetEnd tgt ']' htgt hrb,
      dropWhile_all_stop notTargetEnd tgt ']' htgt hrb,
      List.takeWhile_cons, List.dropWhile_cons, hsp, hlb,
      hbul, hmc, hws2ne, htgtne, hallt]
  | some al =>
    obtain ⟨halne, halchars⟩ := halias al rfl
    simp [parseChecklistLine, strDataMk, aliasSegment,
      takeWhile_all_stop jsSpaceChar ws1 bullet hws1 hbfalse,
      dropWhile_all_stop jsSpaceChar ws1 bullet hws1 hbfalse,
      takeWhile_all_stop jsSpaceChar ws2 '[' hws2 hlb,
      dropWhile_all_stop jsSpaceChar ws2 '[' hws2 hlb,
      takeWhile_all_stop notTargetEnd tgt '|' htgt hpipe,
      dropWhile_all_stop notTargetEnd tgt '|' htgt hpipe,
      takeWhile_all_stop notAliasEnd al ']' halchars hrb2,
      dropWhile_all_stop notAliasEnd al ']' halchars hrb2,
      List.takeWhile_cons, List.dropWhile_cons, hsp, hlb,
      hbul, hmc, hws2ne, htgtne, halne, hallt]

/-- The template rewrite of a well-formed match re-parses, with the mark
replaced by the requested checkbox state and every other group intact. -/
theorem parseChecklistLine_rewrite (cl : ChecklistLine) (b : Bool)
    (hwf : ChecklistLineWf cl) :
    parseChecklistLine (rewriteLine cl b)
      = some { cl with mark := if b then 'x' else ' ' } := by
  obtain ⟨ld, mk0, tg, alo, tr⟩ := cl
  obtain ⟨⟨ws1, bullet, ws2, hlead, hws1, hbul, hws2ne, hws2⟩,
    _hmark, htgtne, htgt, halias, htrail⟩ := hwf
  dsimp only at hlead _hmark htgtne htgt halias htrail
  have hmc : (if b then 'x' else ' ') = ' ' ∨ (if b then 'x' else ' ') = 'x'
      ∨ (if b then 'x' else ' ') = 'X' := by cases b <;> simp
  have hmkd : ∀ s : String, String.mk s.data = s := strMkData
  have hrw : rewriteLine ⟨ld, mk0, tg, alo, tr⟩ b
      = String.mk (ws1 ++ bullet :: ws2 ++ '[' :: (if b then 'x' else ' ') ::
          ']' :: ' ' :: '[' :: '[' :: tg.data ++
          aliasSegment (alo.map String.data) ++
          ']' :: ']' :: tr.data) := by
    apply String.ext
    cases b <;> cases alo <;>
      simp [rewriteLine, aliasSegment, hlead, List.append_assoc]
  have halias2 : ∀ al, alo.map String.data = some al →
      al ≠ [] ∧ ∀ c ∈ al, notAliasEnd c = true := by
    intro al hal
    cases alo with
    | none => exact Option.noConfusion hal
    | some a =>
      injection hal with hal2
      subst hal2
      exact halias a rfl
  rw [hrw, parse_rebuild ws1 ws2 tg.data tr.data (alo.map String.data) bullet
    _ hws1 hbul hws2ne hws2 hmc htgtne htgt halias2 htrail]
  have hld : String.mk (ws1 ++ bullet :: ws2) = ld := by
    rw [← hlead]
  cases alo <;> simp_all [hld, hmkd]



/-- For the three characters the checkbox group can hold, the loop's
lower-cased test agrees with the claim's checked flag. -/
theorem isChecked_eq_markChecked (m : Char)
    (hm : m = ' ' ∨ m = 'x' ∨ m = 'X') :
    (jsToLower (String.mk [m]) == "x") = markChecked m := by
  rcases hm with h | h | h <;> subst h <;> decide

/-- A line the claim classifies as not needing a rewrite passes through the
loop body byte-for-byte, contributing no count. -/
theorem syncLine_skip (env : MirrorEnv) (path line : String)
    (h : lineNeedsRewrite env path line = false) :
    syncLine env path line = (line, 0) := by
  unfold lineNeedsRewrite at h
  unfold syncLine
  cases hp : parseChecklistLine line with
  | none => simp
  | some cl =>
    simp only [hp] at h
    have hm := (parseChecklistLine_wf hp).2.1
    unfold statusForLine at h
    by_cases ht : jsTrim cl.target = ""
    · simp [ht]
    · rw [if_neg ht] at h
      cases hr : env.resolve (jsTrim cl.target) path with
      | none => simp [ht, hr]
      | some np =>
        rw [hr] at h
        dsimp only at h
        cases hs : getLinkedTaskStatus env np with
        | none => simp [ht, hr, hs]
        | some st =>
          rw [hs] at h
          simp only [bne_eq_false_iff_eq] at h
          simp [ht, hr, hs, isChecked_eq_markChecked cl.mark hm, h]

/-- A line whose mark disagrees with the linked note's status is replaced by
the template rewrite and counted once. -/
theorem syncLine_rewrite (env : MirrorEnv) (path line : String)
    (cl : ChecklistLine) (st : TaskStatus)
    (hp : parseChecklistLine line = some cl)
    (hst : statusForLine env path cl = some st)
    (hneq : markChecked cl.mark ≠ (st == TaskStatus.done)) :
    syncLine env path line
      = (rewriteLine cl (st == TaskStatus.done), 1) := by
  have hm := (parseChecklistLine_wf hp).2.1
  unfold statusForLine at hst
  by_cases ht : jsTrim cl.target = ""
  · rw [if_pos ht] at hst; exact Option.noConfusion hst
  · rw [if_neg ht] at hst
    cases hr : env.resolve (jsTrim cl.target) path with
    | none => rw [hr] at hst; exact Option.noConfusion hst
    | some np =>
      rw [hr] at hst
      dsimp only at hst
      unfold syncLine
      simp [hp, ht, hr, hst, isChecked_eq_markChecked cl.mark hm, hneq]

/-- The loop body's count is the claim's 0/1 indicator. -/
theorem syncLine_snd (env : MirrorEnv) (path line : String) :
    (syncLine env path line).2
      = if lineNeedsRewrite env path line then 1 else 0 := by
  unfold syncLine lineNeedsRewrite statusForLine
  cases hp : parseChecklistLine line with
  | none => simp
  | some cl =>
    have hm := (parseChecklistLine_wf hp).2.1
    by_cases ht : jsTrim cl.target = ""
    · simp [ht]
    · cases hr : env.resolve (jsTrim cl.target) path with
      | none => simp [ht, hr]
      | some np =>
        cases hs : getLinkedTaskStatus env np with
        | none => simp [ht, hr, hs]
        | some st =>
          by_cases he : markChecked cl.mark = (st == TaskStatus.done) <;>
            simp [ht, hr, hs, isChecked_eq_markChecked cl.mark hm, he]

/-- The per-file count is the number of lines the claim marks for rewrite. -/
theorem syncFileContent_snd (env : MirrorEnv) (path content : String) :
    (syncFileContent env path content).2
      = (jsSplitNl content).countP (lineNeedsRewrite env path) := by
  unfold syncFileContent
  simp only [List.map_map]
  rw [← sum_map_ite_one (lineNeedsRewrite env path)]
  congr 1
  apply List.map_congr_left
  intro l _
  exact syncLine_snd env path l

/-- The per-file content is the rejoin in which exactly the marked lines are
replaced and every other line is kept verbatim. -/
theorem syncFileContent_fst (env : MirrorEnv) (path content : String) :
    (syncFileContent env path content).1
      = joinLines ((jsSplitNl content).map fun l =>
          if lineNeedsRewrite env path l then (syncLine env path l).1
          else l) := by
  unfold syncFileContent
  simp only [List.map_map]
  congr 1
  apply List.map_congr_left
  intro l _
  by_cases h : lineNeedsRewrite env path l
  · simp [h]
  · simp [h, syncLine_skip env path l (by simpa using h)]


/-- C9: `syncLinkedChecklistStates` rewrites exactly the checklist lines
whose checkbox mark differs from the linked note's completion status, the
rewritten line re-parses with the mark matching the note (the note is
authoritative); every other line of every scanned file is left byte-for-byte
unchanged — an entirely untouched file keeps its exact content — and the
returned count is the number of rewritten lines. -/
theorem linked_checklist_mirror_exact (env : MirrorEnv) :
    (∀ path line, lineNeedsRewrite env path line = false →
        syncLine env path line = (line, 0))
    ∧ (∀ path line cl, parseChecklistLine line = some cl →
        lineNeedsRewrite env path line = true →
        ∃ st, statusForLine env path cl = some st
          ∧ syncLine env path line
              = (rewriteLine cl (st == TaskStatus.done), 1)
          ∧ parseChecklistLine (rewriteLine cl (st == TaskStatus.done))
              = some { cl with
                  mark := if st == TaskStatus.done then 'x' else ' ' })
    ∧ (∀ f ∈ env.files, (syncFile env f).1.path = f.path
        ∧ (syncFile env f).1.content
            = joinLines ((jsSplitNl f.content).map fun l =>
                if lineNeedsRewrite env f.path l then (syncLine env f.path l).1
                else l)
        ∧ ((jsSplitNl f.content).countP (lineNeedsRewrite env f.path) = 0 →
            (syncFile env f).1 = f))
    ∧ (syncLinkedChecklistStates env).2
        = (env.files.map fun f =>
            (jsSplitNl f.content).countP (lineNeedsRewrite env f.path)).sum := by
  have hfile : ∀ f : MirrorFile, (syncFile env f).1.path = f.path
      ∧ (syncFile env f).1.content
          = joinLines ((jsSplitNl f.content).map fun l =>
              if lineNeedsRewrite env f.path l then (syncLine env f.path l).1
              else l)
      ∧ ((jsSplitNl f.content).countP (lineNeedsRewrite env f.path) = 0 →
          (syncFile env f).1 = f) := by
    intro f
    have hzero : (jsSplitNl f.content).countP (lineNeedsRewrite env f.path) = 0 →
        joinLines ((jsSplitNl f.content).map fun l =>
          if lineNeedsRewrite env f.path l then (syncLine env f.path l).1
          else l) = f.content := by
      intro h0
      have hall := List.countP_eq_zero.mp h0
      have hmap : ((jsSplitNl f.content).map fun l =>
          if lineNeedsRewrite env f.path l then (syncLine env f.path l).1
          else l) = jsSplitNl f.content := by
        have := List.map_congr_left (l := jsSplitNl f.content)
          (f := fun l => if lineNeedsRewrite env f.path l
            then (syncLine env f.path l).1 else l) (g := id)
          (fun l hl => by simp [hall l hl])
        simpa using this
      rw [hmap, joinLines_jsSplitNl]
    unfold syncFile
    by_cases hz : (syncFileContent env f.path f.content).2 = 0
    · have h0 : (jsSplitNl f.content).countP (lineNeedsRewrite env f.path) = 0 := by
        rw [← syncFileContent_snd]; exact hz
      simp [hz, hzero h0]
    · have h0 : ¬((jsSplitNl f.content).countP (lineNeedsRewrite env f.path) = 0) := by
        rw [← syncFileContent_snd]; exact hz
      simp [hz, syncFileContent_fst, h0]
  refine ⟨fun path line h => syncLine_skip env path line h,
    fun path line cl hp hneed => ?_,
    fun f _ => hfile f, ?_⟩
  · unfold lineNeedsRewrite at hneed
    simp only [hp] at hneed
    cases hs : statusForLine env path cl with
    | none => rw [hs] at hneed; simp at hneed
    | some st =>
      rw [hs] at hneed
      dsimp only at hneed
      have hne : markChecked cl.mark ≠ (st == TaskStatus.done) :=
        bne_iff_ne.mp hneed
      exact ⟨st, rfl, syncLine_rewrite env path line cl st hp hs hne,
        parseChecklistLine_rewrite cl (st == TaskStatus.done)
          (parseChecklistLine_wf hp)⟩
  · unfold syncLinkedChecklistStates
    dsimp only
    congr 1
    apply List.map_congr_left
    intro f _
    show (syncFile env f).2 = _
    unfold syncFile
    dsimp only
    exact syncFileContent_snd env f.path f.content


set_option maxRecDepth 100000 in
/-- Witness: in the one-file vault the unchecked line linking to the done
note is classified as needing a rewrite, and the theorem applied there
yields the checked rewrite, count 1, and a re-parse with mark `x`. -/
theorem linked_checklist_mirror_exact_witness :
    lineNeedsRewrite mirrorEnvW "Daily.md" "- [ ] [[Tasks/Buy milk|Buy]]" = true
    ∧ parseChecklistLine "- [ ] [[Tasks/Buy milk|Buy]]" = some clW
    ∧ ∃ st, statusForLine mirrorEnvW "Daily.md" clW = some st
        ∧ syncLine mirrorEnvW "Daily.md" "- [ ] [[Tasks/Buy milk|Buy]]"
            = (rewriteLine clW (st == TaskStatus.done), 1)
        ∧ parseChecklistLine (rewriteLine clW (st == TaskStatus.done))
            = some { clW with
                mark := if st == TaskStatus.done then 'x' else ' ' } :=
  ⟨by decide, by decide,
    (linked_checklist_mirror_exact mirrorEnvW).2.1 "Daily.md"
      "- [ ] [[Tasks/Buy milk|Buy]]" clW (by decide) (by decide)⟩

end TaskTodoist
